import Mathlib

/-!
# Verification of the MongoDB storage engine core

A shallow embedding of the core components of the `mongodb-engine`
MariaDB storage-engine plugin, together with theorems settling the
specification's claims.

Embedded components (each definition names the C++ function it
translates):
* `mongodb_schema.cc`   — type inference, structural analysis, schema cache
* `mongodb_connection.cc` — the connection pool state machine
* `mongodb_translator.cc` — the condition translator
* `ha_mongodb_handler.cc` — document/row conversion and scan initialisation
* `mongodb_uri_parser.cc` — the connection-string parser and renderer

Machine integers are modelled as `Int`/`Nat`; `double` payloads are
carried opaquely as 64-bit patterns (`Nat`) since the code never
computes with them, only stores them.  Time (`std::chrono` points) is
modelled as `Nat` ticks.  Fallible library calls (driver cursors,
network) are modelled as explicit parameters.
-/

set_option maxRecDepth 4000

/-! ## BSON value model

`bson_value_t` / `bson_iter_t` runtime types.  Payloads that the code
only passes through are carried opaquely: a `double` is its bit
pattern, an embedded document or array is carried as its JSON
rendering (the code never inspects the nested structure, it only
renders it).  `typeTag` gives the numeric `bson_type_t` constants from
`<bson/bson.h>`. -/

inductive BsonValue where
  | double (bits : Nat)              -- BSON_TYPE_DOUBLE     = 0x01
  | utf8 (s : String)                -- BSON_TYPE_UTF8       = 0x02
  | document (json : String)         -- BSON_TYPE_DOCUMENT   = 0x03
  | array (json : String)            -- BSON_TYPE_ARRAY      = 0x04
  | binary (bytes : List Nat)        -- BSON_TYPE_BINARY     = 0x05
  | undef                            -- BSON_TYPE_UNDEFINED  = 0x06
  | oid (hex24 : String)             -- BSON_TYPE_OID        = 0x07
  | boolV (b : Bool)                 -- BSON_TYPE_BOOL       = 0x08
  | dateTime (epochMillis : Int)     -- BSON_TYPE_DATE_TIME  = 0x09
  | nullV                            -- BSON_TYPE_NULL       = 0x0A
  | int32 (v : Int)                  -- BSON_TYPE_INT32      = 0x10
  | timestamp (t : Nat)              -- BSON_TYPE_TIMESTAMP  = 0x11
  | int64 (v : Int)                  -- BSON_TYPE_INT64      = 0x12
  | decimal128 (repr128 : String)    -- BSON_TYPE_DECIMAL128 = 0x13
  | other (tag : Nat)                -- any remaining bson_type_t
deriving DecidableEq, Repr

def BsonValue.typeTag : BsonValue → Nat
  | .double _ => 1
  | .utf8 _ => 2
  | .document _ => 3
  | .array _ => 4
  | .binary _ => 5
  | .undef => 6
  | .oid _ => 7
  | .boolV _ => 8
  | .dateTime _ => 9
  | .nullV => 10
  | .int32 _ => 16
  | .timestamp _ => 17
  | .int64 _ => 18
  | .decimal128 _ => 19
  | .other t => t

/-- A BSON document as iterated by `bson_iter_t`: the ordered list of
top-level key/value pairs. -/
abbrev BsonDoc := List (String × BsonValue)

/-- Model of `bson_as_canonical_extended_json` /
`bson_as_relaxed_extended_json`: some total JSON rendering of the
document.  The claims never depend on the exact text, only on the fact
that a string is produced, so one simple renderer stands in for both
driver calls. -/
def bsonValueJson : BsonValue → String
  | .double bits => toString bits
  | .utf8 s => "\"" ++ s ++ "\""
  | .document j => j
  | .array j => j
  | .binary bs => toString bs
  | .undef => "null"
  | .oid h => "\"" ++ h ++ "\""
  | .boolV b => toString b
  | .dateTime ms => toString ms
  | .nullV => "null"
  | .int32 v => toString v
  | .timestamp t => toString t
  | .int64 v => toString v
  | .decimal128 r => r
  | .other t => toString t

def bsonDocJson (doc : BsonDoc) : String :=
  let body := doc.map (fun kv => "\"" ++ kv.1 ++ "\": " ++ bsonValueJson kv.2)
  "\x7b" ++ String.intercalate ", " body ++ "\x7d"

/-! ## MariaDB field-type model (`enum_field_types`) -/

inductive MysqlType where
  | tiny | short | long | longlong | floatT | doubleT | newdecimal
  | stringT | varString | blob | longBlob | mediumBlob
  | datetime | timestamp | date | time
deriving DecidableEq, Repr

/-! ## `mongodb_schema.cc` — schema inference and cache -/

def MONGODB_DEFAULT_SCHEMA_CACHE_TTL_SECONDS : Nat := 300
def MONGODB_SCHEMA_SAMPLE_SIZE : Nat := 100

/-- `MongoSchemaRegistry::infer_field_type` (mongodb_schema.cc:264).
The `Option` input models the `if (!value)` null-pointer check. -/
def infer_field_type (value : Option BsonValue) : MysqlType :=
  match value with
  | none => .stringT
  | some v =>
    match v with
    | .double _ => .doubleT
    | .utf8 _ => .stringT
    | .document _ => .mediumBlob
    | .array _ => .mediumBlob
    | .binary _ => .blob
    | .boolV _ => .tiny
    | .dateTime _ => .datetime
    | .nullV => .stringT
    | .int32 _ => .long
    | .timestamp _ => .timestamp
    | .int64 _ => .longlong
    | .decimal128 _ => .newdecimal
    | .oid _ => .stringT
    | _ => .stringT

structure MongoFieldMapping where
  sql_name : String
  mongo_path : String
  sql_type : MysqlType := .stringT
  is_virtual : Bool := false
  is_indexed : Bool := false
  is_nullable : Bool := true
  default_value : String := ""
  max_length : Nat := 255
  decimals : Nat := 0
deriving DecidableEq, Repr

/-- The `switch (mapping.sql_type)` block of
`analyze_document_structure` (mongodb_schema.cc:224) picking
`max_length` for a fresh mapping. -/
def mappingMaxLength : MysqlType → Nat
  | .stringT => 255
  | .varString => 255
  | .blob => 65535
  | .longBlob => 65535
  | .mediumBlob => 1048576
  | _ => 0

/-- The type-refinement step of `analyze_document_structure`
(mongodb_schema.cc:247-253): run when an existing field's current type
differs from the newly inferred one.  Only `MYSQL_TYPE_LONG` widens to
`MYSQL_TYPE_DOUBLE`; any non-string type falls to `MYSQL_TYPE_STRING`
on a string observation; everything else keeps the current type. -/
def refine_field_type (current inferred : MysqlType) : MysqlType :=
  if current ≠ inferred then
    if current = .long ∧ inferred = .doubleT then .doubleT
    else if current ≠ .stringT ∧ inferred = .stringT then .stringT
    else current
  else current

/-- `normalize_field_name` (mongodb_schema.cc:366): replace characters
outside `[A-Za-z0-9_]` with `_`, and prefix `_` if the result starts
with a digit.  `std::isalnum` in the C locale is ASCII. -/
def normalize_field_name (name : String) : String :=
  let normalized := name.toList.map (fun c => if c.isAlphanum ∨ c = '_' then c else '_')
  match normalized with
  | [] => ""
  | c :: _ => if c.isDigit then String.mk ('_' :: normalized) else String.mk normalized

/-- `is_valid_sql_identifier` (mongodb_schema.cc:385). -/
def is_valid_sql_identifier (name : String) : Bool :=
  match name.toList with
  | [] => false
  | c :: rest =>
    name.toList.length ≤ 64 && (c.isAlpha || c = '_') &&
      rest.all (fun d => d.isAlphanum || d = '_')

/-- Key-ordered association map standing in for `std::map<std::string, α>`:
entries kept strictly sorted by key, insert-or-assign semantics. -/
def SMap (α : Type) := List (String × α)

def SMap.empty {α : Type} : SMap α := ([] : List (String × α))

def SMap.find? {α : Type} (m : SMap α) (k : String) : Option α :=
  match m with
  | [] => none
  | (k', v) :: rest => if k' = k then some v else SMap.find? rest k

def SMap.insert {α : Type} (m : SMap α) (k : String) (v : α) : SMap α :=
  match m with
  | [] => [(k, v)]
  | (k', v') :: rest =>
    if k = k' then (k, v) :: rest
    else if k < k' then (k, v) :: (k', v') :: rest
    else (k', v') :: SMap.insert rest k v

/-- The per-key body of the field loop of `analyze_document_structure`
(mongodb_schema.cc:202-255): normalize the key, skip invalid
identifiers, create a mapping on first sight, refine the type
otherwise. -/
def analyze_field (fields : SMap MongoFieldMapping) (key : String) (value : BsonValue) :
    SMap MongoFieldMapping :=
  let field_name := normalize_field_name key
  if ¬is_valid_sql_identifier field_name then fields
  else
    match fields.find? field_name with
    | none =>
      let ty := infer_field_type (some value)
      fields.insert field_name
        { sql_name := field_name, mongo_path := key, sql_type := ty,
          is_nullable := true, max_length := mappingMaxLength ty }
    | some m =>
      let inferred := infer_field_type (some value)
      let refined := refine_field_type m.sql_type inferred
      let m' :=
        if m.sql_type ≠ inferred ∧ m.sql_type ≠ refined then
          if refined = .stringT then { m with sql_type := .stringT, max_length := 255 }
          else { m with sql_type := refined }
        else m
      fields.insert field_name m'

/-- `analyze_document_structure` (mongodb_schema.cc:189): fold
`analyze_field` over the document's top-level fields. -/
def analyze_document_structure (doc : BsonDoc) (fields : SMap MongoFieldMapping) :
    SMap MongoFieldMapping :=
  doc.foldl (fun fs kv => analyze_field fs kv.1 kv.2) fields

/-- The sampling loop of `infer_schema_from_collection`
(mongodb_schema.cc:101-103). -/
def analyze_documents (docs : List BsonDoc) : SMap MongoFieldMapping :=
  docs.foldl (fun fs d => analyze_document_structure d fs) SMap.empty

/-- The merged SQL type inferred for one field after a sequence of
observations of BSON values under that field (each observation from
one sampled document): first observation fixes the initial type
(`infer_field_type`), later ones pass through `refine_field_type`.
This is `analyze_document_structure` restricted to a single field
name. -/
def fieldTypeOfObservations (vs : List BsonValue) : Option MysqlType :=
  vs.foldl
    (fun acc v =>
      match acc with
      | none => some (infer_field_type (some v))
      | some t => some (refine_field_type t (infer_field_type (some v))))
    none

structure MongoSchemaCache where
  collection_name : String := ""
  field_mappings : List MongoFieldMapping := []
  last_updated : Nat := 0
  expires_at : Nat := 0
  estimated_documents : Nat := 0
  average_document_size : Nat := 0
  is_valid : Bool := false
deriving DecidableEq, Repr

/-- `MongoSchemaRegistry::is_cache_valid` (mongodb_schema.cc:341):
valid flag set and current time strictly before expiry. -/
def is_cache_valid (cache : MongoSchemaCache) (now : Nat) : Bool :=
  cache.is_valid && decide (now < cache.expires_at)

/-- `MongoSchemaRegistry::get_field_mappings` (mongodb_schema.cc:327):
return the cached mappings only when the entry exists and is valid at
`now`; otherwise behave as absent. -/
def get_field_mappings (schema_cache : SMap MongoSchemaCache) (table_name : String)
    (now : Nat) : Option (List MongoFieldMapping) :=
  match schema_cache.find? table_name with
  | some c => if is_cache_valid c now then some c.field_mappings else none
  | none => none

/-- `MongoSchemaRegistry::sample_collection_documents`
(mongodb_schema.cc:137).  The driver interaction is parameterised: the
collection handle's validity, the cursor's creation, the stream of
documents it would deliver, and whether `mongoc_cursor_error` reports
an error afterwards.  The loop copies at most
`MONGODB_SCHEMA_SAMPLE_SIZE` documents. -/
def sample_collection_documents (collection_ok : Bool) (cursor_ok : Bool)
    (cursor_docs : List BsonDoc) (has_error : Bool) : Bool × List BsonDoc :=
  if ¬collection_ok then (false, [])
  else if ¬cursor_ok then (false, [])
  else
    let samples := cursor_docs.take MONGODB_SCHEMA_SAMPLE_SIZE
    (¬has_error && ¬samples.isEmpty, samples)

/-- The cache entry built on successful inference
(`infer_schema_from_collection`, mongodb_schema.cc:106-116): mappings
from the analysis map in key order, timestamps now / now + TTL, marked
valid. -/
def mkSchemaCacheEntry (collection_name : String) (now ttl : Nat)
    (inferred : SMap MongoFieldMapping) (sample_count : Nat) : MongoSchemaCache :=
  { collection_name := collection_name,
    field_mappings := (inferred : List (String × MongoFieldMapping)).map (·.2),
    last_updated := now,
    expires_at := now + ttl,
    estimated_documents := sample_count,
    is_valid := true }

/-- `MongoSchemaRegistry::infer_schema_from_collection`
(mongodb_schema.cc:61).  `client_ok`/`collection_ok` model the
null-pointer checks on `schema_client` and the collection handle;
the sampling parameters are threaded to
`sample_collection_documents`.  Returns the success flag and the
updated schema cache. -/
def infer_schema_from_collection (client_ok : Bool)
    (schema_cache : SMap MongoSchemaCache)
    (database_name collection_name : String)
    (collection_ok cursor_ok : Bool) (cursor_docs : List BsonDoc) (has_error : Bool)
    (now ttl : Nat) : Bool × SMap MongoSchemaCache :=
  if ¬client_ok then (false, schema_cache)
  else
    let table_key := database_name ++ "." ++ collection_name
    let cache_hit :=
      match schema_cache.find? table_key with
      | some e => is_cache_valid e now
      | none => false
    if cache_hit then (true, schema_cache)
    else if ¬collection_ok then (false, schema_cache)
    else
      let sampled := sample_collection_documents collection_ok cursor_ok cursor_docs has_error
      if ¬sampled.1 ∨ sampled.2.isEmpty then (false, schema_cache)
      else
        let inferred := analyze_documents sampled.2
        let entry := mkSchemaCacheEntry collection_name now ttl inferred sampled.2.length
        (true, schema_cache.insert table_key entry)

/-- `MongoSchemaRegistry::invalidate_cache` (mongodb_schema.cc:347):
mark the entry invalid in place, never remove it. -/
def invalidate_cache (schema_cache : SMap MongoSchemaCache) (table_name : String) :
    SMap MongoSchemaCache :=
  match schema_cache.find? table_name with
  | none => schema_cache
  | some e => schema_cache.insert table_name { e with is_valid := false }

/-! ## `mongodb_connection.cc` — the connection pool

Clients (`mongoc_client_t*`) are abstract handles modelled as `Nat`
identities; `create_new_connection` hands out a fresh identity drawn
from the pool's monotone counter when the network round trip succeeds
(its success is a parameter).  `std::chrono::steady_clock` points are
`Nat` ticks (seconds). -/

def MONGODB_DEFAULT_MAX_CONNECTIONS : Nat := 10
def MONGODB_DEFAULT_IDLE_TIMEOUT_SECONDS : Nat := 300

/-- `MongoConnectionInfo` (mongodb_connection.h:31). -/
structure MongoConnectionInfo where
  client : Nat
  last_used : Nat
  in_use : Bool
  connection_id : Nat
deriving DecidableEq, Repr

/-- `MongoConnectionPool` state (mongodb_connection.h:46). -/
structure MongoConnectionPool where
  connections : List MongoConnectionInfo
  max_connections : Nat
  idle_timeout : Nat
  next_connection_id : Nat
  active_connections : Nat
  total_connections_created : Nat
deriving DecidableEq, Repr

/-- Constructor state (mongodb_connection.cc:18-35). -/
def MongoConnectionPool.init (max idleTimeout : Nat) : MongoConnectionPool :=
  { connections := [],
    max_connections := max,
    idle_timeout := idleTimeout,
    next_connection_id := 1,
    active_connections := 0,
    total_connections_created := 0 }

/-- Number of entries whose `in_use` flag is set. -/
def busyCount (l : List MongoConnectionInfo) : Nat :=
  l.countP (·.in_use)

/-- `MongoConnectionPool::cleanup_idle_connections`
(mongodb_connection.cc:161): destroy entries that are not in use and
whose idle duration strictly exceeds the idle timeout.  The signed
comparison models `duration_cast` of a possibly negative duration. -/
def cleanup_idle_connections (now : Nat) (p : MongoConnectionPool) : MongoConnectionPool :=
  { p with connections :=
      (p.connections.filter
        (fun ci => ci.in_use || decide ((now : Int) - ci.last_used ≤ p.idle_timeout))) }

/-- The mark-busy step of `acquire_connection` on the first available
entry (`find_available_connection` + mongodb_connection.cc:51-57):
returns the claimed client and the updated list, or `none` when every
entry is in use. -/
def claimFirstAvailable (now : Nat) : List MongoConnectionInfo →
    Option (Nat × List MongoConnectionInfo)
  | [] => none
  | ci :: rest =>
    if ¬ci.in_use then
      some (ci.client, { ci with in_use := true, last_used := now } :: rest)
    else
      match claimFirstAvailable now rest with
      | none => none
      | some (c, rest') => some (c, ci :: rest')

/-- `MongoConnectionPool::acquire_connection`
(mongodb_connection.cc:42).  `create_ok` models whether
`create_new_connection` succeeds (URI valid, network up, ping
succeeded). -/
def acquire_connection (now : Nat) (create_ok : Bool) (p : MongoConnectionPool) :
    Option Nat × MongoConnectionPool :=
  let p := cleanup_idle_connections now p
  match claimFirstAvailable now p.connections with
  | some (c, conns) =>
    (some c, { p with connections := conns,
                      active_connections := p.active_connections + 1 })
  | none =>
    if p.connections.length < p.max_connections then
      if create_ok then
        let new_client := p.next_connection_id
        let conn_info : MongoConnectionInfo :=
          { client := new_client, last_used := now, in_use := true,
            connection_id := p.next_connection_id }
        (some new_client,
         { p with connections := p.connections ++ [conn_info],
                  next_connection_id := p.next_connection_id + 1,
                  active_connections := p.active_connections + 1,
                  total_connections_created := p.total_connections_created + 1 })
      else (none, p)
    else (none, p)

/-- The search-and-flip loop of `release_connection`
(mongodb_connection.cc:86-95): flip the first entry matching the
client that is currently in use; report whether one was found. -/
def releaseInList (client now : Nat) : List MongoConnectionInfo →
    List MongoConnectionInfo × Bool
  | [] => ([], false)
  | ci :: rest =>
    if ci.client = client ∧ ci.in_use then
      ({ ci with in_use := false, last_used := now } :: rest, true)
    else
      let r := releaseInList client now rest
      (ci :: r.1, r.2)

/-- `MongoConnectionPool::release_connection`
(mongodb_connection.cc:80).  `client = none` models the null-pointer
early return. -/
def release_connection (client : Option Nat) (now : Nat) (p : MongoConnectionPool) :
    MongoConnectionPool :=
  match client with
  | none => p
  | some c =>
    let r := releaseInList c now p.connections
    if r.2 then
      { p with connections := r.1, active_connections := p.active_connections - 1 }
    else
      { p with connections := r.1 }

/-- `MongoConnectionPool::cleanup` (mongodb_connection.cc:195):
destroy every client, clear the list, zero the busy counter. -/
def pool_cleanup (p : MongoConnectionPool) : MongoConnectionPool :=
  { p with connections := [], active_connections := 0 }

/-- `MongoConnectionPool::is_healthy` (mongodb_connection.cc:210):
reads the `active_connections` counter, it does not recount the
entries. -/
def is_healthy (p : MongoConnectionPool) : Bool :=
  decide (p.connections.length ≤ p.max_connections) &&
    decide (p.active_connections ≤ p.connections.length)

/-- One externally triggerable pool operation. -/
inductive PoolOp where
  | acquire (now : Nat) (create_ok : Bool)
  | release (client : Option Nat) (now : Nat)
  | cleanupIdle (now : Nat)
  | cleanupAll
deriving DecidableEq, Repr

def applyPoolOp (p : MongoConnectionPool) : PoolOp → MongoConnectionPool
  | .acquire now create_ok => (acquire_connection now create_ok p).2
  | .release client now => release_connection client now p
  | .cleanupIdle now => cleanup_idle_connections now p
  | .cleanupAll => pool_cleanup p

/-- The pool state after a sequence of operations on a fresh pool. -/
def runPool (max idleTimeout : Nat) (ops : List PoolOp) : MongoConnectionPool :=
  ops.foldl applyPoolOp (MongoConnectionPool.init max idleTimeout)

/-! ## `mongodb_translator.cc` — the condition translator

The host's `Item` predicate tree is opaque to the translator (the
source only forward-declares the classes); this model gives it just
enough structure to exhibit range comparisons, disjunctions and
IN-lists. -/

inductive SqlCond where
  | eqCond (field : String) (value : String)
  | gtCond (field : String) (value : String)
  | inCond (field : String) (values : List String)
  | andCond (subs : List SqlCond)
  | orCond (subs : List SqlCond)
deriving Repr

/-- A BSON filter document under construction (`bson_t*`). -/
abbrev BsonFilter := List (String × BsonValue)

/-- `mongodb_translator::translate_condition_to_bson`
(mongodb_translator.cc:20).  After the null checks it ignores the
condition entirely, appends the hard-coded demonstration filter
`city: "Paris"` to the output document, and reports success. -/
def translate_condition_to_bson (cond : Option SqlCond) (match_filter : Option BsonFilter) :
    Bool × Option BsonFilter :=
  match cond, match_filter with
  | none, mf => (false, mf)
  | some _, none => (false, none)
  | some _, some mf => (true, some (mf ++ [("city", BsonValue.utf8 "Paris")]))

/-- `ha_mongodb::cond_push` (ha_mongodb_handler.cc:1092).  Returns the
condition the SQL layer must still evaluate (the C++ returns `nullptr`
for "fully handled") and the handler's stored `pushed_condition`
afterwards.  `bson_new` is assumed to succeed. -/
def cond_push (cond : Option SqlCond) (pushed_condition : Option BsonFilter) :
    Option SqlCond × Option BsonFilter :=
  match cond with
  | none => (none, pushed_condition)
  | some c =>
    let tr := translate_condition_to_bson (some c) (some [])
    if tr.1 then (none, tr.2)
    else (some c, pushed_condition)

/-! ## `ha_mongodb_handler.cc` — document-to-row conversion

A MariaDB `Field` is modelled by its name, declared charset, and the
cell it writes into the row buffer.  `store` overwrites the cell;
`set_null`/`set_notnull` are reflected in the cell's variant. -/

inductive SqlFieldValue where
  | nullV
  | intVal (v : Int)
  | doubleBits (bits : Nat)
  | strVal (s : String) (charset : String)
deriving DecidableEq, Repr

structure SqlField where
  name : String
  charset : String
  value : SqlFieldValue
deriving DecidableEq, Repr

/-- `ha_mongodb::convert_simple_field_from_document`
(ha_mongodb_handler.cc:1556): look the field name up at the top level
(`bson_iter_find` takes the first match); absent means the field stays
NULL; present means `set_notnull` followed by a type switch that
handles INT32, INT64, DOUBLE and UTF8 and stores a
`[BSON_TYPE_<tag>]` placeholder string for every other type. -/
def convert_simple_field_from_document (doc : BsonDoc) (field : SqlField)
    (field_name : String) : Int × SqlField :=
  match doc.find? (fun kv => kv.1 == field_name) with
  | none => (0, field)
  | some kv =>
    match kv.2 with
    | .int32 v => (0, { field with value := .intVal v })
    | .int64 v => (0, { field with value := .intVal v })
    | .double bits => (0, { field with value := .doubleBits bits })
    | .utf8 s => (0, { field with value := .strVal s field.charset })
    | w =>
      (0, { field with value :=
              (.strVal ("[BSON_TYPE_" ++ toString w.typeTag ++ "]") field.charset) })

/-- `ha_mongodb::convert_mongodb_id_field` (ha_mongodb_handler.cc:1633):
no top-level `_id` means failure (returns 1, field untouched);
otherwise ObjectId renders as its 24-hex string, string and integer
ids are stored directly, and any other type stores the canonical JSON
of the whole document, all with `system_charset_info`. -/
def convert_mongodb_id_field (doc : BsonDoc) (field : SqlField) : Int × SqlField :=
  match doc.find? (fun kv => kv.1 == "_id") with
  | none => (1, field)
  | some kv =>
    match kv.2 with
    | .oid hex24 => (0, { field with value := .strVal hex24 "system" })
    | .utf8 s => (0, { field with value := .strVal s "system" })
    | .int32 v => (0, { field with value := .intVal v })
    | .int64 v => (0, { field with value := .intVal v })
    | _ => (0, { field with value := .strVal (bsonDocJson doc) "system" })

/-- `ha_mongodb::convert_document_to_row` (ha_mongodb_handler.cc:1404):
null document or buffer is a hard failure (1); otherwise every field
is first set to NULL, then filled per name: `_id` through
`convert_mongodb_id_field` (whose result code is ignored), `document`
with the relaxed JSON rendering of the whole document, anything else
through `convert_simple_field_from_document`.  Always returns 0 on the
non-null path. -/
def convert_document_to_row (doc : Option BsonDoc) (buf_ok : Bool)
    (table_fields : List SqlField) : Int × List SqlField :=
  match doc with
  | none => (1, table_fields)
  | some d =>
    if ¬buf_ok then (1, table_fields)
    else
      let nulled := table_fields.map (fun f => { f with value := SqlFieldValue.nullV })
      let converted := nulled.map (fun f =>
        if f.name == "_id" then (convert_mongodb_id_field d f).2
        else if f.name == "document" then
          { f with value := SqlFieldValue.strVal (bsonDocJson d) f.charset }
        else (convert_simple_field_from_document d f f.name).2)
      (0, converted)

/-! ## `ha_mongodb_handler.cc` — scan initialisation (`rnd_init`)

The handler state relevant to scan start, and the outcome of
`rnd_init`: either an error, a count-mode initialisation (no cursor),
or a cursor created against a filter.  Driver calls are parameters:
`connect_ok` for `connect_to_mongodb`, `count_result` for
`mongoc_collection_count_documents` (`none` = error). -/

structure HandlerScanState where
  count_mode : Bool
  lightweight_count_mode : Bool
  consecutive_rnd_next_calls : Nat
  pushed_condition : Option BsonFilter
  mongo_count_result : Nat
  mongo_count_returned : Nat
  scan_position : Nat
  has_collection : Bool
deriving DecidableEq, Repr

inductive RndInitOutcome where
  /-- `DBUG_RETURN` with a nonzero error code. -/
  | err (code : Int)
  /-- Count mode: native count executed with the given filter, no cursor. -/
  | countMode (count_filter : BsonFilter)
  /-- A cursor was created with the given find filter;
  `count_optimized` marks the COUNT-with-WHERE projection branch
  (ha_mongodb_handler.cc:269-299). -/
  | cursorScan (find_filter : BsonFilter) (count_optimized : Bool)
deriving DecidableEq, Repr

def HA_ERR_INTERNAL_ERROR : Int := 126

/-- `ha_mongodb::rnd_init` (ha_mongodb_handler.cc:122-334), state and
filter flow only (debug printouts and the timing instrumentation carry
no state the claims touch; the `use_mongodb_sort` branch is dead,
hard-coded false at line 245). -/
def rnd_init (st : HandlerScanState) (scan : Bool) (connect_ok : Bool)
    (count_result : Option Nat) : RndInitOutcome × HandlerScanState :=
  -- lines 136-139: reset optimisation state
  let st := { st with lightweight_count_mode := false, consecutive_rnd_next_calls := 0 }
  -- lines 143-159: for table scans, reset count state and destroy any
  -- stored pushed_condition
  let st :=
    if scan then
      { st with count_mode := false, mongo_count_result := 0,
                mongo_count_returned := 0, pushed_condition := none }
    else st
  -- lines 166-176: connect if no collection handle yet
  if ¬st.has_collection ∧ ¬connect_ok then (.err HA_ERR_INTERNAL_ERROR, st)
  else
    let st := { st with has_collection := true }
    -- lines 194-225: count mode, native count with the stored filter
    if st.count_mode then
      let query := st.pushed_condition.getD []
      match count_result with
      | none => (.err HA_ERR_INTERNAL_ERROR, st)
      | some n =>
        (.countMode query, { st with mongo_count_result := n, mongo_count_returned := 0 })
    else
      -- lines 228-232: reset scan position
      let st := { st with scan_position := 0 }
      -- lines 266-320: build the find query from the stored filter
      let query := st.pushed_condition.getD []
      if st.pushed_condition.isSome ∧ scan then
        -- lines 269-310: COUNT-with-WHERE optimisation attempt
        match count_result with
        | some n =>
          (.cursorScan query true,
           { st with mongo_count_result := n, mongo_count_returned := 0 })
        | none => (.cursorScan query false, st)
      else
        (.cursorScan query false, st)


/-! ## `mongodb_uri_parser.cc` — connection-string parsing and rendering

`std::string` is modelled as `List Char`; the position-based
`find`/`substr` arithmetic of the source becomes index search plus
`take`/`drop` on the remaining suffix (each stage of the C++ parser
only ever inspects the suffix from its cursor onward, so passing the
suffix is the same computation). -/

abbrev Str := List Char

/-- `std::string::find(c, pos)` relative to the suffix: index of the
first occurrence. -/
def strFind? (c : Char) : Str → Option Nat
  | [] => none
  | d :: rest => if d = c then some 0 else (strFind? c rest).map (· + 1)

/-- Byte-lexicographic `std::string` ordering (keys here are ASCII, so
code-point order coincides). -/
def lexLt : Str → Str → Bool
  | [], [] => false
  | [], _ :: _ => true
  | _ :: _, [] => false
  | a :: as, b :: bs => if a < b then true else if b < a then false else lexLt as bs

/-- `std::map<std::string, std::string>::operator[]` followed by
assignment: insert-or-assign keeping the entries sorted by key. -/
def omapInsert (m : List (Str × Str)) (k v : Str) : List (Str × Str) :=
  match m with
  | [] => [(k, v)]
  | (k', v') :: rest =>
    if k = k' then (k, v) :: rest
    else if lexLt k k' then (k, v) :: (k', v') :: rest
    else (k', v') :: omapInsert rest k v

/-- `MongoURI` (mongodb_uri_parser.h:23) with its default-constructor
values. -/
structure MongoURI where
  is_srv : Bool := false
  username : Str := []
  password : Str := []
  auth_source : Str := []
  hosts : List (Str × Int) := []
  replica_set : Str := []
  database : Str := []
  collection : Str := []
  ssl : Bool := false
  connect_timeout_ms : Int := 30000
  socket_timeout_ms : Int := 30000
  options : List (Str × Str) := []
  is_valid : Bool := false
  error_message : Str := []
deriving DecidableEq, Repr

/-- Decimal digits of a natural number (`std::to_string`, positive
part). -/
def natToStr (n : Nat) : Str :=
  if _h : n < 10 then [Char.ofNat ('0'.toNat + n)]
  else natToStr (n / 10) ++ [Char.ofNat ('0'.toNat + n % 10)]
decreasing_by exact Nat.div_lt_self (by omega) (by omega)

/-- `std::to_string(int)`. -/
def intToStr (i : Int) : Str :=
  if i < 0 then '-' :: natToStr (-i).toNat else natToStr i.toNat

def isAsciiDigit (c : Char) : Bool := '0' ≤ c && c ≤ '9'

def digitsToNat (ds : Str) : Nat :=
  ds.foldl (fun a c => a * 10 + (c.toNat - '0'.toNat)) 0

/-- `std::isspace` in the C locale. -/
def isCppSpace (c : Char) : Bool :=
  c = ' ' || c = '\t' || c = '\n' || c = '\x0b' || c = '\x0c' || c = '\r'

/-- The digit-run and range stage of `std::stoi`. -/
def cppStoiCore (s2 : Str) (sign : Int) : Option Int :=
  let ds := s2.takeWhile isAsciiDigit
  if ds = [] then none
  else
    let v : Int := sign * (digitsToNat ds : Int)
    if v < -2147483648 ∨ 2147483647 < v then none else some v

/-- `std::stoi`: skip whitespace, optional sign, a non-empty maximal
digit run (trailing characters ignored); `none` models the
`invalid_argument` / `out_of_range` exceptions the call sites catch. -/
def cppStoi (s : Str) : Option Int :=
  let s1 := s.dropWhile isCppSpace
  let sign : Int := if s1.head? = some '-' then -1 else 1
  let s2 : Str := if s1.head? = some '-' ∨ s1.head? = some '+' then s1.tail else s1
  cppStoiCore s2 sign

def hexDigitVal? (c : Char) : Option Nat :=
  if '0' ≤ c ∧ c ≤ '9' then some (c.toNat - '0'.toNat)
  else if 'a' ≤ c ∧ c ≤ 'f' then some (c.toNat - 'a'.toNat + 10)
  else if 'A' ≤ c ∧ c ≤ 'F' then some (c.toNat - 'A'.toNat + 10)
  else none

/-- `std::istringstream >> std::hex >> hex_val` on the two escape
characters: the value of the maximal hex-digit prefix, and 0 when
extraction fails outright (C++11 writes 0 on failure). -/
def hexPairVal (a b : Char) : Nat :=
  match hexDigitVal? a with
  | none => 0
  | some va =>
    match hexDigitVal? b with
    | none => va
    | some vb => 16 * va + vb

/-- `MongoURIParser::url_decode` (mongodb_uri_parser.cc:436): a `%`
followed by at least two characters consumes two and appends
`static_cast<char>` of their hex value; `+` becomes a space; anything
else is copied. -/
def url_decode : Str → Str
  | [] => []
  | '%' :: a :: b :: rest => Char.ofNat (hexPairVal a b % 256) :: url_decode rest
  | '+' :: rest => ' ' :: url_decode rest
  | c :: rest => c :: url_decode rest

/-- `MongoURIParser::split_key_value` (mongodb_uri_parser.cc:453):
split at the first delimiter; no delimiter gives an empty value. -/
def split_key_value (kv : Str) (delimiter : Char) : Str × Str :=
  match strFind? delimiter kv with
  | some p => (kv.take p, kv.drop (p + 1))
  | none => (kv, [])

/-- Splitting into possibly empty segments (the raw `std::getline`
loop). -/
def splitSegs (d : Char) : Str → List Str
  | [] => [[]]
  | c :: rest =>
    if c = d then [] :: splitSegs d rest
    else
      match splitSegs d rest with
      | s :: ss => (c :: s) :: ss
      | [] => [[c]]

/-- `MongoURIParser::split_string` (mongodb_uri_parser.cc:462):
`std::getline` segments with the empty ones dropped. -/
def split_string (s : Str) (delimiter : Char) : List Str :=
  (splitSegs delimiter s).filter (· ≠ [])

def isAsciiAlnum (c : Char) : Bool :=
  ('a' ≤ c && c ≤ 'z') || ('A' ≤ c && c ≤ 'Z') || ('0' ≤ c && c ≤ '9')

/-- The hostname regex of `validate_hostname`
(mongodb_uri_parser.cc:402):
an alphanumeric character, optionally followed by up to 251
alphanumeric/hyphen/dot characters and a final alphanumeric
character. -/
def hostnameBodyOk : Str → Bool
  | [] => false
  | [c] => isAsciiAlnum c
  | c :: rest =>
    isAsciiAlnum c && isAsciiAlnum (rest.getLastD ' ') &&
      rest.dropLast.all (fun d => isAsciiAlnum d || d = '-' || d = '.') &&
      decide (rest.dropLast.length ≤ 251)

/-- `MongoURIParser::validate_hostname` (mongodb_uri_parser.cc:391). -/
def validate_hostname (hostname : Str) : Bool :=
  if hostname = [] || decide (hostname.length > 253) then false
  else if hostname = "localhost".toList then true
  else hostnameBodyOk hostname

/-- `MongoURIParser::validate_port` (mongodb_uri_parser.cc:406). -/
def validate_port (port : Int) : Bool :=
  decide (0 < port) && decide (port ≤ 65535)

def dbInvalidChars : Str := ['/', '\\', '.', ' ', '"', '$', '*', '<', '>', ':', '|', '?']

/-- `MongoURIParser::validate_database_name` (mongodb_uri_parser.cc:410). -/
def validate_database_name (database : Str) : Bool :=
  if database = [] || decide (database.length > 64) then false
  else database.all (fun c => ¬dbInvalidChars.contains c)

/-- `MongoURIParser::validate_collection_name` (mongodb_uri_parser.cc:420). -/
def validate_collection_name (collection : Str) : Bool :=
  if collection = [] || decide (collection.length > 120) then false
  else
    match collection with
    | c :: _ => ¬(c = '$') && ¬collection.contains '\x00'
    | [] => false

/-- A parser stage: either an aborted parse carrying the partial
result with its error message, or the updated result plus the
remaining suffix. -/
abbrev StageResult := Except MongoURI (MongoURI × Str)

/-- `MongoURIParser::parse_protocol` (mongodb_uri_parser.cc:194). -/
def parse_protocol (uri : Str) (r : MongoURI) : StageResult :=
  if uri.take 14 = "mongodb+srv://".toList then .ok ({ r with is_srv := true }, uri.drop 14)
  else if uri.take 10 = "mongodb://".toList then .ok ({ r with is_srv := false }, uri.drop 10)
  else .error { r with error_message :=
    "Invalid protocol. Must start with mongodb:// or mongodb+srv://".toList }

/-- `MongoURIParser::parse_credentials` (mongodb_uri_parser.cc:212):
credentials are consumed only when the first `@` lies before the first
`/` and `?`. -/
def parse_credentials (rest : Str) (r : MongoURI) : StageResult :=
  match strFind? '@' rest with
  | none => .ok (r, rest)
  | some at_pos =>
    let slash_pos := (strFind? '/' rest).getD rest.length
    let question_pos := (strFind? '?' rest).getD rest.length
    let end_pos := min slash_pos question_pos
    if at_pos > end_pos then .ok (r, rest)
    else
      let creds := rest.take at_pos
      let rest' := rest.drop (at_pos + 1)
      match strFind? ':' creds with
      | some colon_pos =>
        .ok ({ r with username := url_decode (creds.take colon_pos),
                      password := url_decode (creds.drop (colon_pos + 1)) }, rest')
      | none => .ok ({ r with username := url_decode creds }, rest')

/-- One `host[:port]` entry of the host loop
(mongodb_uri_parser.cc:266-294): default port 27017, `stoi` failure,
hostname and port validation, in source order. -/
def parse_one_host (host_port : Str) : Except Str (Str × Int) :=
  let parsed : Except Str (Str × Int) :=
    match strFind? ':' host_port with
    | some colon_pos =>
      match cppStoi (host_port.drop (colon_pos + 1)) with
      | none => .error ("Invalid port number: ".toList ++ host_port.drop (colon_pos + 1))
      | some port => .ok (host_port.take colon_pos, port)
    | none => .ok (host_port, 27017)
  match parsed with
  | .error e => .error e
  | .ok (host, port) =>
    if ¬validate_hostname host then .error ("Invalid hostname: ".toList ++ host)
    else if ¬validate_port port then .error ("Invalid port: ".toList ++ intToStr port)
    else .ok (host, port)

/-- The host loop: entries validated and appended one at a time, so an
error keeps the hosts accepted before it. -/
def parse_hosts_loop (hs : List Str) (r : MongoURI) : Except MongoURI MongoURI :=
  match hs with
  | [] => .ok r
  | hp :: rest =>
    match parse_one_host hp with
    | .error msg => .error { r with error_message := msg }
    | .ok h => parse_hosts_loop rest { r with hosts := r.hosts ++ [h] }

/-- `MongoURIParser::parse_hosts` (mongodb_uri_parser.cc:247): the
host section runs to the first `/`, else the first `?`, else the end;
the delimiter is not consumed. -/
def parse_hosts (rest : Str) (r : MongoURI) : StageResult :=
  let end_pos :=
    match strFind? '/' rest with
    | some p => p
    | none => (strFind? '?' rest).getD rest.length
  let hosts_str := rest.take end_pos
  let rest' := rest.drop end_pos
  if hosts_str = [] then .error { r with error_message := "No hosts specified".toList }
  else
    match parse_hosts_loop (split_string hosts_str ',') r with
    | .error r' => .error r'
    | .ok r' => .ok (r', rest')

/-- `MongoURIParser::parse_database_collection`
(mongodb_uri_parser.cc:302): optional `/database[/collection]` up to
the first `?`. -/
def parse_database_collection (rest : Str) (r : MongoURI) : StageResult :=
  match rest with
  | '/' :: rest₁ =>
    let end_pos := (strFind? '?' rest₁).getD rest₁.length
    let path := rest₁.take end_pos
    let rest' := rest₁.drop end_pos
    let r' :=
      match strFind? '/' path with
      | some sp => { r with database := path.take sp, collection := path.drop (sp + 1) }
      | none => { r with database := path }
    if r'.database ≠ [] ∧ ¬validate_database_name r'.database then
      .error { r' with error_message := "Invalid database name: ".toList ++ r'.database }
    else if r'.collection ≠ [] ∧ ¬validate_collection_name r'.collection then
      .error { r' with error_message := "Invalid collection name: ".toList ++ r'.collection }
    else .ok (r', rest')
  | _ => .ok (r, rest)

/-- The option loop of `parse_options` (mongodb_uri_parser.cc:351-383):
split each pair at the first `=`, skip empty keys, percent-decode both
parts, populate the five recognized options or retain the pair in the
pass-through map. -/
def parse_options_loop (pairs : List Str) (r : MongoURI) : Except MongoURI MongoURI :=
  match pairs with
  | [] => .ok r
  | pair :: rest =>
    let kv := split_key_value pair '='
    if kv.1 = [] then parse_options_loop rest r
    else
      let key := url_decode kv.1
      let value := url_decode kv.2
      if key = "authSource".toList then
        parse_options_loop rest { r with auth_source := value }
      else if key = "replicaSet".toList then
        parse_options_loop rest { r with replica_set := value }
      else if key = "ssl".toList ∨ key = "tls".toList then
        parse_options_loop rest
          { r with ssl := (value == "true".toList) || (value == "1".toList) }
      else if key = "connectTimeoutMS".toList then
        match cppStoi value with
        | none => .error { r with error_message := "Invalid connectTimeoutMS: ".toList ++ value }
        | some v => parse_options_loop rest { r with connect_timeout_ms := v }
      else if key = "socketTimeoutMS".toList then
        match cppStoi value with
        | none => .error { r with error_message := "Invalid socketTimeoutMS: ".toList ++ value }
        | some v => parse_options_loop rest { r with socket_timeout_ms := v }
      else
        parse_options_loop rest { r with options := omapInsert r.options key value }

/-- `MongoURIParser::parse_options` (mongodb_uri_parser.cc:341). -/
def parse_options (rest : Str) (r : MongoURI) : StageResult :=
  match rest with
  | '?' :: rest₁ =>
    match parse_options_loop (split_string rest₁ '&') r with
    | .error r' => .error r'
    | .ok r' => .ok (r', [])
  | _ => .ok (r, rest)

/-- `MongoURIParser::parse` (mongodb_uri_parser.cc:135): the staged
parse; any stage failure returns the partial result, and the final
validation requires hosts, database and collection. -/
def MongoURIParser.parse (connection_string : Str) : MongoURI :=
  if connection_string = [] then
    { error_message := "Empty connection string".toList }
  else
    match parse_protocol connection_string {} with
    | .error r => r
    | .ok (r, rest) =>
      match parse_credentials rest r with
      | .error r => r
      | .ok (r, rest) =>
        match parse_hosts rest r with
        | .error r => r
        | .ok (r, rest) =>
          match parse_database_collection rest r with
          | .error r => r
          | .ok (r, rest) =>
            match parse_options rest r with
            | .error r => r
            | .ok (r, _) =>
              if r.hosts = [] then
                { r with error_message := "No hosts specified".toList }
              else if r.database = [] then
                { r with error_message := "Database name is required".toList }
              else if r.collection = [] then
                { r with error_message :=
                    "Collection name is required for storage engine".toList }
              else { r with is_valid := true }

/-- The `if (i > 0) uri << sep` join of the renderers. -/
def joinWith (d : Char) : List Str → Str
  | [] => []
  | [x] => x
  | x :: xs => x ++ d :: joinWith d xs

/-- One `host[:port]` of the renderer: the port is omitted when it is
the default 27017 (mongodb_uri_parser.cc:38-44). -/
def renderHost (h : Str × Int) : Str :=
  h.1 ++ (if h.2 ≠ 27017 then ':' :: intToStr h.2 else [])

/-- The `option_parts` vector built by `MongoURI::to_connection_string`
(mongodb_uri_parser.cc:59-76): non-default recognized options first,
then the pass-through map in its iteration (key) order. -/
def MongoURI.optionParts (u : MongoURI) : List Str :=
  (if u.auth_source ≠ [] ∧ u.auth_source ≠ u.database then
    ["authSource=".toList ++ u.auth_source] else []) ++
  (if u.replica_set ≠ [] then ["replicaSet=".toList ++ u.replica_set] else []) ++
  (if u.ssl then ["ssl=true".toList] else []) ++
  (if u.connect_timeout_ms ≠ 30000 then
    ["connectTimeoutMS=".toList ++ intToStr u.connect_timeout_ms] else []) ++
  (if u.socket_timeout_ms ≠ 30000 then
    ["socketTimeoutMS=".toList ++ intToStr u.socket_timeout_ms] else []) ++
  u.options.map (fun kv => kv.1 ++ '=' :: kv.2)

/-- `MongoURI::to_connection_string` (mongodb_uri_parser.cc:18): the
driver-facing string; the collection is never rendered, `authSource`
is dropped when it equals the database, defaults are omitted. -/
def MongoURI.to_connection_string (u : MongoURI) : Str :=
  if ¬u.is_valid then []
  else
    let proto := if u.is_srv then "mongodb+srv://".toList else "mongodb://".toList
    let creds :=
      if u.username ≠ [] then
        u.username ++ (if u.password ≠ [] then ':' :: u.password else []) ++ ['@']
      else []
    let hostsPart := joinWith ',' (u.hosts.map renderHost)
    let dbPart := if u.database ≠ [] then '/' :: u.database else []
    let optPart := if u.optionParts ≠ [] then '?' :: joinWith '&' u.optionParts else []
    proto ++ creds ++ hostsPart ++ dbPart ++ optPart

/-! ## Auxiliary predicates used by the theorems -/

/-- Pool sanity invariant: the busy counter matches the entries' flags
and the entry count respects the configured maximum. -/
def PoolInv (p : MongoConnectionPool) : Prop :=
  p.active_connections = busyCount p.connections ∧
    p.connections.length ≤ p.max_connections

/-- `int` range check (values `std::stoi` can produce and
`std::to_string` re-render). -/
def intInRange (i : Int) : Bool :=
  decide (-2147483648 ≤ i) && decide (i ≤ 2147483647)

/-- Characters of a rendered userinfo component that keep the
re-parser's credential scan aligned: no `@`, `/` or `?`. -/
def credSafe (s : Str) : Bool :=
  s.all (fun c => ¬(c = '@' ∨ c = '/' ∨ c = '?'))

/-- Characters of a rendered option value that survive the re-parse:
no `&` (pair separator) and nothing `url_decode` rewrites
(`%`, `+`). -/
def optValueSafe (v : Str) : Bool :=
  v.all (fun c => ¬(c = '&' ∨ c = '%' ∨ c = '+'))

/-- Option keys the parser recognizes and so never stores in the
pass-through map. -/
def knownOptionKeys : List Str :=
  ["authSource".toList, "replicaSet".toList, "ssl".toList, "tls".toList,
   "connectTimeoutMS".toList, "socketTimeoutMS".toList]

/-- Characters of a rendered option key that survive the re-parse:
additionally no `=` (key/value separator). -/
def optKeyCharsSafe (k : Str) : Bool :=
  k.all (fun c => ¬(c = '&' ∨ c = '=' ∨ c = '%' ∨ c = '+'))

/-- Strict key-sortedness of the pass-through option map (the
`std::map` iteration-order invariant). -/
def omapSorted : List (Str × Str) → Bool
  | [] => true
  | [_] => true
  | a :: b :: rest => lexLt a.1 b.1 && omapSorted ((b :: rest) : List (Str × Str))

/-- The extra, character-level conditions (beyond parser-guaranteed
well-formedness) under which the driver string round-trips: userinfo
free of URI delimiters, `authSource` distinct from the database (it is
dropped from the rendered string when equal), and option keys/values
free of separators and percent-escapes. -/
def uriExtraSafe (u : MongoURI) : Bool :=
  credSafe u.username && credSafe u.password &&
  (u.auth_source == ([] : Str) || (¬(u.auth_source == u.database) && optValueSafe u.auth_source)) &&
  optValueSafe u.replica_set &&
  u.options.all (fun kv => optKeyCharsSafe kv.1 && optValueSafe kv.2)

/-- Full well-formedness for the round-trip core theorem: a valid URI
whose structural fields satisfy the parser's own validation rules plus
the character-level conditions of `uriExtraSafe`. -/
def uriRoundTripSafe (u : MongoURI) : Bool :=
  u.is_valid &&
  ¬u.hosts.isEmpty &&
  u.hosts.all (fun h => validate_hostname h.1 && validate_port h.2) &&
  (¬(u.database == ([] : Str)) && validate_database_name u.database) &&
  intInRange u.connect_timeout_ms && intInRange u.socket_timeout_ms &&
  omapSorted u.options &&
  u.options.all (fun kv => ¬(kv.1 == ([] : Str)) && decide (kv.1 ∉ knownOptionKeys)) &&
  uriExtraSafe u

/-! # Theorems -/

/-! ## Shared map lemmas -/

theorem SMap.find?_insert_self {α : Type} (m : SMap α) (k : String) (v : α) :
    (m.insert k v).find? k = some v := by
  induction m with
  | nil => simp [SMap.insert, SMap.find?]
  | cons hd tl ih =>
    obtain ⟨k', v'⟩ := hd
    by_cases h1 : k = k'
    · subst h1; simp [SMap.insert, SMap.find?]
    · by_cases h2 : k < k'
      · simp [SMap.insert, h1, h2, SMap.find?]
      · simp [SMap.insert, h1, h2, SMap.find?, Ne.symm h1, ih]

/-! ## C1 — the condition translator accepts what it cannot represent -/

/-- C1: the claim states that `translate_condition_to_bson` returns
false (not representable) for any predicate containing an unrecognized
sub-clause such as a disjunction.  Evaluating the translator at a
disjunction of two equalities shows the code instead reports success
and hands back the hard-coded demonstration filter
`city: "Paris"`, which omits the predicate's constraint entirely;
`cond_push` then stores that filter and tells the SQL layer the
condition was fully handled. -/
theorem C1_translator_accepts_unrecognized_disjunction :
    translate_condition_to_bson
        (some (SqlCond.orCond [SqlCond.eqCond "city" "London", SqlCond.gtCond "price" "10"]))
        (some []) =
      (true, some [("city", BsonValue.utf8 "Paris")]) ∧
    cond_push
        (some (SqlCond.orCond [SqlCond.eqCond "city" "London", SqlCond.gtCond "price" "10"]))
        none =
      (none, some [("city", BsonValue.utf8 "Paris")]) := by
  constructor <;> rfl

/-! ## C5 — type-merge behaviour across sampled documents -/

/-- C5 counterexample: the claim "an integer-inferred type loses to a
floating-point observation" and "order-independent in outcome" fails
for a 64-bit integer observation: through the real analysis pipeline,
a field seen as int64 then double keeps `MYSQL_TYPE_LONGLONG`, while
the reverse order yields `MYSQL_TYPE_DOUBLE` — order-dependent, and
the integer-inferred type did not lose to the floating-point
observation. -/
theorem C5_counterexample_int64_double_order_dependent :
    ((analyze_documents [[("a", BsonValue.int64 7)], [("a", BsonValue.double 4629841154425225216)]]).find?
        "a").map (·.sql_type) = some MysqlType.longlong ∧
    ((analyze_documents [[("a", BsonValue.double 4629841154425225216)], [("a", BsonValue.int64 7)]]).find?
        "a").map (·.sql_type) = some MysqlType.doubleT ∧
    MysqlType.longlong ≠ MysqlType.doubleT := by
  refine ⟨rfl, rfl, by decide⟩

/-- C5 (amended): the merge examples hold as stated —
`{int32, int32, double}` yields double and `{int32, string}` yields
string in every order — and string is the universal fallback for every
current type; but numeric widening to double applies only to the
32-bit integer inferred type (`MYSQL_TYPE_LONG`), not to every
integer-inferred type (int64 keeps `MYSQL_TYPE_LONGLONG`, see the
counterexample), so the merge is not order-independent in general. -/
theorem C5_amended_merge_laws :
    (∀ l : List BsonValue,
        l.Perm [BsonValue.int32 30, BsonValue.int32 31, BsonValue.double 4629841154425225216] →
        fieldTypeOfObservations l = some MysqlType.doubleT) ∧
    (∀ l : List BsonValue,
        l.Perm [BsonValue.int32 30, BsonValue.utf8 "x"] →
        fieldTypeOfObservations l = some MysqlType.stringT) ∧
    refine_field_type MysqlType.long MysqlType.doubleT = MysqlType.doubleT ∧
    (∀ t : MysqlType, t ≠ MysqlType.stringT →
        refine_field_type t MysqlType.stringT = MysqlType.stringT) := by
  refine ⟨?_, ?_, rfl, ?_⟩
  · have h : ∀ l ∈ [BsonValue.int32 30, BsonValue.int32 31,
        BsonValue.double 4629841154425225216].permutations',
        fieldTypeOfObservations l = some MysqlType.doubleT := by decide
    intro l hl
    exact h l (List.mem_permutations'.2 hl)
  · have h : ∀ l ∈ [BsonValue.int32 30, BsonValue.utf8 "x"].permutations',
        fieldTypeOfObservations l = some MysqlType.stringT := by decide
    intro l hl
    exact h l (List.mem_permutations'.2 hl)
  · intro t ht
    cases t <;> simp_all [refine_field_type]

/-- Witness for `C5_amended_merge_laws` at concrete inputs: a
double-first observation order. -/
theorem C5_amended_merge_laws_witness :
    fieldTypeOfObservations
        [BsonValue.double 4629841154425225216, BsonValue.int32 30, BsonValue.int32 31] =
      some MysqlType.doubleT ∧
    fieldTypeOfObservations [BsonValue.utf8 "x", BsonValue.int32 30] =
      some MysqlType.stringT :=
  ⟨C5_amended_merge_laws.1 _ (by decide), C5_amended_merge_laws.2.1 _ (by decide)⟩

/-! ## C6 — schema cache TTL behaviour -/

/-- C6: a cache entry created by a successful inference at time `T`
with TTL `ttl` is served unchanged by `get_field_mappings` for every
lookup strictly before `T + ttl`, and treated as absent from `T + ttl`
on.  The hypotheses say the inference call actually took the sampling
path (no valid cache hit) and that sampling succeeded. -/
theorem C6_schema_cache_ttl
    (cache : SMap MongoSchemaCache) (db coll : String)
    (collection_ok cursor_ok : Bool) (docs : List BsonDoc) (has_error : Bool)
    (T ttl : Nat)
    (hmiss : ∀ e, cache.find? (db ++ "." ++ coll) = some e → is_cache_valid e T = false)
    (hok : (sample_collection_documents collection_ok cursor_ok docs has_error).1 = true) :
    (infer_schema_from_collection true cache db coll collection_ok cursor_ok
        docs has_error T ttl).1 = true ∧
    (∀ T', T' < T + ttl →
        get_field_mappings
            (infer_schema_from_collection true cache db coll collection_ok cursor_ok
              docs has_error T ttl).2 (db ++ "." ++ coll) T' =
          some (mkSchemaCacheEntry coll T ttl
            (analyze_documents
              (sample_collection_documents collection_ok cursor_ok docs has_error).2)
            (sample_collection_documents collection_ok cursor_ok docs has_error).2.length).field_mappings) ∧
    (∀ T', T + ttl ≤ T' →
        get_field_mappings
            (infer_schema_from_collection true cache db coll collection_ok cursor_ok
              docs has_error T ttl).2 (db ++ "." ++ coll) T' = none) := by
  have hcoll : collection_ok = true := by
    by_contra hc
    simp [sample_collection_documents, hc] at hok
  have hcur : cursor_ok = true := by
    by_contra hc
    simp [sample_collection_documents, hcoll, hc] at hok
  subst hcoll
  subst hcur
  have hisE : (sample_collection_documents true true docs has_error).2.isEmpty = false := by
    simp [sample_collection_documents] at hok ⊢
    simp [hok.2]
  have hhit :
      (match cache.find? (db ++ "." ++ coll) with
        | some e => is_cache_valid e T
        | none => false) = false := by
    cases hfind : cache.find? (db ++ "." ++ coll) with
    | none => simp
    | some e => simpa using hmiss e hfind
  have hres : infer_schema_from_collection true cache db coll true true docs has_error T ttl
      = (true,
      cache.insert (db ++ "." ++ coll) (mkSchemaCacheEntry coll T ttl
        (analyze_documents (sample_collection_documents true true docs has_error).2)
        (sample_collection_documents true true docs has_error).2.length)) := by
    simp only [infer_schema_from_collection]
    simp [hhit, hok, hisE]
  refine ⟨by rw [hres], ?_, ?_⟩
  · intro T' hT'
    rw [hres]
    simp only [get_field_mappings, SMap.find?_insert_self]
    simp [is_cache_valid, mkSchemaCacheEntry, hT']
  · intro T' hT'
    rw [hres]
    simp only [get_field_mappings, SMap.find?_insert_self]
    simp [is_cache_valid, mkSchemaCacheEntry, Nat.not_lt.2 hT']

/-- Witness for `C6_schema_cache_ttl`: one document sampled at `T = 0`
with the default 300-second TTL; a lookup at 299 hits, a lookup at 300
misses. -/
theorem C6_schema_cache_ttl_witness :
    (∀ e : MongoSchemaCache, (SMap.empty : SMap MongoSchemaCache).find? "db.coll" = some e →
        is_cache_valid e 0 = false) ∧
    (sample_collection_documents true true [[("age", BsonValue.int32 30)]] false).1 = true ∧
    (infer_schema_from_collection true SMap.empty "db" "coll" true true
        [[("age", BsonValue.int32 30)]] false 0 300).1 = true := by
  refine ⟨?_, by decide, ?_⟩
  · intro e he
    simp [SMap.empty, SMap.find?] at he
  · exact (C6_schema_cache_ttl SMap.empty "db" "coll" true true
      [[("age", BsonValue.int32 30)]] false 0 300
      (by intro e he; simp [SMap.empty, SMap.find?] at he) (by decide)).1

/-! ## C7 — failed sampling leaves the cache untouched -/

/-- C7: when the sampling step fails (zero documents or a cursor
error — exactly when `sample_collection_documents` reports failure)
and no valid cache entry short-circuited the call,
`infer_schema_from_collection` returns failure with the schema cache
exactly as it was, so any prior entry for the key is unchanged. -/
theorem C7_failed_sampling_preserves_cache
    (client_ok : Bool) (cache : SMap MongoSchemaCache) (db coll : String)
    (collection_ok cursor_ok : Bool) (docs : List BsonDoc) (has_error : Bool)
    (now ttl : Nat)
    (hmiss : ∀ e, cache.find? (db ++ "." ++ coll) = some e → is_cache_valid e now = false)
    (hfail : (sample_collection_documents collection_ok cursor_ok docs has_error).1 = false) :
    infer_schema_from_collection client_ok cache db coll collection_ok cursor_ok docs
        has_error now ttl = (false, cache) := by
  cases client_ok with
  | false => simp [infer_schema_from_collection]
  | true =>
    have hhit :
        (match cache.find? (db ++ "." ++ coll) with
          | some e => is_cache_valid e now
          | none => false) = false := by
      cases hfind : cache.find? (db ++ "." ++ coll) with
      | none => simp
      | some e => simpa using hmiss e hfind
    cases collection_ok with
    | false => simp [infer_schema_from_collection, hhit]
    | true => simp [infer_schema_from_collection, hhit, hfail]

/-- Witness for `C7_failed_sampling_preserves_cache`: a cursor error
over a cache holding an expired entry; the entry survives verbatim. -/
theorem C7_failed_sampling_preserves_cache_witness :
    (sample_collection_documents true true [[("age", BsonValue.int32 30)]] true).1 = false ∧
    infer_schema_from_collection true
        [("db.coll", { collection_name := "coll", is_valid := true, expires_at := 5 })]
        "db" "coll" true true [[("age", BsonValue.int32 30)]] true 10 300 =
      (false, [("db.coll", { collection_name := "coll", is_valid := true, expires_at := 5 })]) := by
  refine ⟨by decide, ?_⟩
  exact C7_failed_sampling_preserves_cache true _ "db" "coll" true true _ true 10 300
    (by intro e he; simp [SMap.find?] at he; cases he; rfl) (by decide)

/-! ## Pool lemmas -/

theorem busyCount_le_length (l : List MongoConnectionInfo) : busyCount l ≤ l.length :=
  List.countP_le_length _

theorem busyCount_filter_keeps_busy (l : List MongoConnectionInfo)
    (f : MongoConnectionInfo → Bool) (h : ∀ ci ∈ l, ci.in_use → f ci) :
    busyCount (l.filter f) = busyCount l := by
  induction l with
  | nil => rfl
  | cons hd tl ih =>
    have htl : ∀ ci ∈ tl, ci.in_use → f ci := fun ci hm => h ci (List.mem_cons_of_mem _ hm)
    cases hf : f hd with
    | true =>
      simp [List.filter_cons, hf, busyCount, List.countP_cons]
      exact ih htl
    | false =>
      have hni : hd.in_use = false := by
        cases hbu : hd.in_use
        · rfl
        · exact absurd (h hd (List.mem_cons_self _ _) hbu) (by simp [hf])
      simp [List.filter_cons, hf, busyCount, List.countP_cons, hni]
      exact ih htl

theorem cleanup_idle_poolInv (now : Nat) (p : MongoConnectionPool) (h : PoolInv p) :
    PoolInv (cleanup_idle_connections now p) := by
  obtain ⟨h1, h2⟩ := h
  constructor
  · simp only [cleanup_idle_connections]
    rw [busyCount_filter_keeps_busy]
    · exact h1
    · intro ci _ hin; simp [hin]
  · simp only [cleanup_idle_connections]
    exact le_trans (List.length_filter_le _ _) h2

theorem claimFirstAvailable_spec (now : Nat) (l : List MongoConnectionInfo)
    (c : Nat) (l' : List MongoConnectionInfo)
    (h : claimFirstAvailable now l = some (c, l')) :
    busyCount l' = busyCount l + 1 ∧ l'.length = l.length := by
  induction l generalizing c l' with
  | nil => simp [claimFirstAvailable] at h
  | cons hd tl ih =>
    cases hin : hd.in_use with
    | false =>
      simp [claimFirstAvailable, hin] at h
      obtain ⟨hc, hl⟩ := h
      subst hl
      refine ⟨?_, by simp⟩
      simp [busyCount, List.countP_cons, hin]
    | true =>
      simp [claimFirstAvailable, hin] at h
      cases hrec : claimFirstAvailable now tl with
      | none => rw [hrec] at h; simp at h
      | some pr =>
        obtain ⟨c0, tl'⟩ := pr
        rw [hrec] at h
        simp at h
        obtain ⟨hc, hl⟩ := h
        subst hl
        obtain ⟨hb, hlen⟩ := ih c0 tl' hrec
        refine ⟨?_, by simp [hlen]⟩
        simp [busyCount, List.countP_cons, hin] at hb ⊢
        omega

theorem claimFirstAvailable_all_busy (now : Nat) (l : List MongoConnectionInfo)
    (h : ∀ ci ∈ l, ci.in_use = true) : claimFirstAvailable now l = none := by
  induction l with
  | nil => rfl
  | cons hd tl ih =>
    have hhd := h hd (List.mem_cons_self _ _)
    have hrec := ih (fun ci hm => h ci (List.mem_cons_of_mem _ hm))
    simp [claimFirstAvailable, hhd, hrec]

theorem releaseInList_spec (c now : Nat) (l : List MongoConnectionInfo) :
    (releaseInList c now l).1.length = l.length ∧
    ((releaseInList c now l).2 = true →
        busyCount (releaseInList c now l).1 + 1 = busyCount l) ∧
    ((releaseInList c now l).2 = false →
        busyCount (releaseInList c now l).1 = busyCount l) := by
  induction l with
  | nil => simp [releaseInList, busyCount]
  | cons hd tl ih =>
    by_cases hcond : hd.client = c ∧ hd.in_use
    · rw [releaseInList, if_pos hcond]
      refine ⟨by simp, ?_, ?_⟩
      · intro _
        simp [busyCount, List.countP_cons, hcond.2]
      · intro hfalse
        exact absurd hfalse (by simp)
    · rw [releaseInList, if_neg hcond]
      obtain ⟨ih1, ih2, ih3⟩ := ih
      refine ⟨by simp [ih1], ?_, ?_⟩
      · intro hf
        simp only at hf
        have := ih2 hf
        simp [busyCount, List.countP_cons] at this ⊢
        omega
      · intro hf
        simp only at hf
        have := ih3 hf
        simp [busyCount, List.countP_cons] at this ⊢
        omega

theorem acquire_poolInv (now : Nat) (create_ok : Bool) (p : MongoConnectionPool)
    (h : PoolInv p) : PoolInv (acquire_connection now create_ok p).2 := by
  have hq0 := cleanup_idle_poolInv now p h
  simp only [acquire_connection]
  revert hq0
  generalize cleanup_idle_connections now p = q
  intro hq
  obtain ⟨hq1, hq2⟩ := hq
  split
  next c conns heq =>
    obtain ⟨hb, hlen⟩ := claimFirstAvailable_spec now q.connections c conns heq
    exact ⟨by simp [hq1, hb], by simp [hlen, hq2]⟩
  next heq =>
    split
    next hlt =>
      split
      next hck =>
        refine ⟨?_, ?_⟩
        · simp [busyCount, List.countP_append, List.countP_cons, hq1]
        · simp
          omega
      next hck => exact ⟨hq1, hq2⟩
    next hlt => exact ⟨hq1, hq2⟩

theorem release_poolInv (client : Option Nat) (now : Nat) (p : MongoConnectionPool)
    (h : PoolInv p) : PoolInv (release_connection client now p) := by
  obtain ⟨h1, h2⟩ := h
  cases client with
  | none => exact ⟨h1, h2⟩
  | some c =>
    obtain ⟨hlen, hfound, hnot⟩ := releaseInList_spec c now p.connections
    simp only [release_connection]
    cases hf : (releaseInList c now p.connections).2 with
    | true =>
      have := hfound hf
      rw [if_pos rfl]
      refine ⟨?_, by simp [hlen, h2]⟩
      simp only
      omega
    | false =>
      have := hnot hf
      rw [if_neg (by simp)]
      exact ⟨by simp [h1, this], by simp [hlen, h2]⟩

theorem applyPoolOp_poolInv (p : MongoConnectionPool) (op : PoolOp) (h : PoolInv p) :
    PoolInv (applyPoolOp p op) := by
  cases op with
  | acquire now create_ok => exact acquire_poolInv now create_ok p h
  | release client now => exact release_poolInv client now p h
  | cleanupIdle now => exact cleanup_idle_poolInv now p h
  | cleanupAll => exact ⟨rfl, by simp [applyPoolOp, pool_cleanup]⟩

theorem foldl_poolInv (ops : List PoolOp) (p : MongoConnectionPool) (h : PoolInv p) :
    PoolInv (ops.foldl applyPoolOp p) := by
  induction ops generalizing p with
  | nil => exact h
  | cons op rest ih => exact ih _ (applyPoolOp_poolInv p op h)

theorem runPool_poolInv (max idleTimeout : Nat) (ops : List PoolOp) :
    PoolInv (runPool max idleTimeout ops) :=
  foldl_poolInv ops _ ⟨rfl, by simp [MongoConnectionPool.init]⟩

theorem acquire_max (now : Nat) (create_ok : Bool) (p : MongoConnectionPool) :
    (acquire_connection now create_ok p).2.max_connections = p.max_connections := by
  have hmaxq : (cleanup_idle_connections now p).max_connections = p.max_connections := rfl
  simp only [acquire_connection]
  revert hmaxq
  generalize cleanup_idle_connections now p = q
  intro hmaxq
  split
  next c conns heq => simpa using hmaxq
  next heq =>
    split
    next hlt =>
      split
      next hck => simpa using hmaxq
      next hck => simpa using hmaxq
    next hlt => simpa using hmaxq

theorem applyPoolOp_max (p : MongoConnectionPool) (op : PoolOp) :
    (applyPoolOp p op).max_connections = p.max_connections := by
  cases op with
  | acquire now create_ok => exact acquire_max now create_ok p
  | release client now =>
    cases client with
    | none => rfl
    | some c =>
      simp only [applyPoolOp, release_connection]
      cases (releaseInList c now p.connections).2 <;> simp
  | cleanupIdle now => rfl
  | cleanupAll => rfl

theorem runPool_max (max idleTimeout : Nat) (ops : List PoolOp) :
    (runPool max idleTimeout ops).max_connections = max := by
  suffices h : ∀ p : MongoConnectionPool,
      (ops.foldl applyPoolOp p).max_connections = p.max_connections by
    simpa [runPool, MongoConnectionPool.init] using h (MongoConnectionPool.init max idleTimeout)
  induction ops with
  | nil => intro p; rfl
  | cons op rest ih => intro p; rw [List.foldl_cons, ih, applyPoolOp_max]

/-- C8: over every sequence of pool operations starting from a fresh
pool, the number of simultaneously busy handles never exceeds the
configured maximum; and whenever the entry count sits at the maximum
with no idle entry, `acquire_connection` returns `none` instead of
creating or blocking. -/
theorem C8_pool_bound :
    (∀ (max idleTimeout : Nat) (ops : List PoolOp),
        busyCount (runPool max idleTimeout ops).connections ≤ max) ∧
    (∀ (p : MongoConnectionPool) (now : Nat) (create_ok : Bool),
        (∀ ci ∈ p.connections, ci.in_use = true) →
        p.connections.length = p.max_connections →
        (acquire_connection now create_ok p).1 = none) := by
  constructor
  · intro max idleTimeout ops
    have hinv := runPool_poolInv max idleTimeout ops
    have hmax := runPool_max max idleTimeout ops
    calc busyCount (runPool max idleTimeout ops).connections
        ≤ (runPool max idleTimeout ops).connections.length := busyCount_le_length _
      _ ≤ (runPool max idleTimeout ops).max_connections := hinv.2
      _ = max := hmax
  · intro p now create_ok hbusy hfull
    have hkeep : p.connections.filter
        (fun ci => ci.in_use || decide ((now : Int) - ci.last_used ≤ p.idle_timeout)) =
        p.connections := by
      rw [List.filter_eq_self]
      intro ci hm
      simp [hbusy ci hm]
    simp only [acquire_connection, cleanup_idle_connections, hkeep]
    rw [claimFirstAvailable_all_busy now p.connections hbusy]
    simp [hfull]

/-- Witness for `C8_pool_bound`: a single-entry pool at its maximum
with the entry busy refuses a second acquire. -/
theorem C8_pool_bound_witness :
    (∀ ci ∈ [({ client := 1, last_used := 0, in_use := true, connection_id := 1 } :
        MongoConnectionInfo)], ci.in_use = true) ∧
    (acquire_connection 5 true
        { connections := [{ client := 1, last_used := 0, in_use := true, connection_id := 1 }],
          max_connections := 1, idle_timeout := 300, next_connection_id := 2,
          active_connections := 1, total_connections_created := 1 }).1 = none := by
  refine ⟨by decide, ?_⟩
  exact C8_pool_bound.2
    { connections := [{ client := 1, last_used := 0, in_use := true, connection_id := 1 }],
      max_connections := 1, idle_timeout := 300, next_connection_id := 2,
      active_connections := 1, total_connections_created := 1 } 5 true (by decide) rfl

/-! ## C10 — busy counter matches the flags -/

/-- C10: after any operation sequence on a fresh pool, the
`active_connections` counter equals the number of entries whose
`in_use` flag is set, and `is_healthy` — which reads the counter
rather than recounting — therefore computes exactly the recounted
predicate. -/
theorem C10_active_counter_matches_flags (max idleTimeout : Nat) (ops : List PoolOp) :
    (runPool max idleTimeout ops).active_connections =
      busyCount (runPool max idleTimeout ops).connections ∧
    is_healthy (runPool max idleTimeout ops) =
      (decide ((runPool max idleTimeout ops).connections.length ≤
          (runPool max idleTimeout ops).max_connections) &&
        decide (busyCount (runPool max idleTimeout ops).connections ≤
          (runPool max idleTimeout ops).connections.length)) := by
  have hinv := runPool_poolInv max idleTimeout ops
  refine ⟨hinv.1, ?_⟩
  simp [is_healthy, hinv.1]

/-! ## Converter lemmas -/

theorem convert_simple_preserves_name (doc : BsonDoc) (f : SqlField) (fname : String) :
    (convert_simple_field_from_document doc f fname).2.name = f.name := by
  unfold convert_simple_field_from_document
  split
  · rfl
  next kv heq =>
    obtain ⟨k, v⟩ := kv
    cases v <;> rfl

/-! ## C3 — per-field coercion on the live conversion path -/

/-- C3 counterexample: the claim says a boolean document field is
stored as 0/1 (and a BSON null as SQL NULL).  Converting the document
`\x7bflag: true\x7d` against a declared field `flag` stores the
placeholder string `[BSON_TYPE_8]` instead, with the field non-NULL;
the 0/1, datetime, JSON, binary and NULL coercions of the claim exist
only in `convert_bson_value_to_field`, which the conversion path never
calls. -/
theorem C3_counterexample_bool_stored_as_placeholder :
    (convert_document_to_row (some [("flag", BsonValue.boolV true)]) true
        [{ name := "flag", charset := "latin1", value := SqlFieldValue.nullV }]).2 =
      [{ name := "flag", charset := "latin1",
         value := SqlFieldValue.strVal "[BSON_TYPE_8]" "latin1" }] ∧
    SqlFieldValue.strVal "[BSON_TYPE_8]" "latin1" ≠ SqlFieldValue.intVal 1 ∧
    SqlFieldValue.strVal "[BSON_TYPE_8]" "latin1" ≠ SqlFieldValue.intVal 0 := by
  refine ⟨rfl, by decide, by decide⟩

/-- C3 (amended): on the live conversion path
(`convert_simple_field_from_document`, reached from
`convert_document_to_row` for every declared field other than `_id`
and `document`), a present top-level field of the same name is stored
by BSON runtime type as: UTF-8 string with the field's declared
charset; 32-bit and 64-bit integer as integer without truncation;
double as floating point; and every other type — including boolean,
datetime, embedded document/array, binary and null — as the bracketed
placeholder string `[BSON_TYPE_<tag>]` with the field set non-NULL.
No present field is silently dropped. -/
theorem C3_amended_live_coercions (doc : BsonDoc) (f : SqlField)
    (kv : String × BsonValue)
    (hfind : doc.find? (fun p => p.1 == f.name) = some kv) :
    ((convert_simple_field_from_document doc f f.name).2.value =
      match kv.2 with
      | .utf8 s => SqlFieldValue.strVal s f.charset
      | .int32 v => SqlFieldValue.intVal v
      | .int64 v => SqlFieldValue.intVal v
      | .double bits => SqlFieldValue.doubleBits bits
      | w => SqlFieldValue.strVal ("[BSON_TYPE_" ++ toString w.typeTag ++ "]") f.charset) ∧
    (convert_simple_field_from_document doc f f.name).2.value ≠ SqlFieldValue.nullV ∧
    (f.name ≠ "_id" → f.name ≠ "document" →
      (convert_document_to_row (some doc) true [f]).2 =
        [(convert_simple_field_from_document doc
            { f with value := SqlFieldValue.nullV } f.name).2]) := by
  obtain ⟨k, v⟩ := kv
  refine ⟨?_, ?_, ?_⟩
  · simp only [convert_simple_field_from_document, hfind]
    cases v <;> rfl
  · simp only [convert_simple_field_from_document, hfind]
    cases v <;> simp
  · intro h1 h2
    simp [convert_document_to_row, beq_iff_eq, h1, h2]

/-- Witness for `C3_amended_live_coercions`: an int64 field is stored
as an integer, the row path agrees. -/
theorem C3_amended_live_coercions_witness :
    (([("n", BsonValue.int64 5000000000)] : BsonDoc).find?
        (fun p => p.1 == "n") = some ("n", BsonValue.int64 5000000000)) ∧
    (convert_simple_field_from_document [("n", BsonValue.int64 5000000000)]
        { name := "n", charset := "latin1", value := SqlFieldValue.nullV } "n").2.value =
      SqlFieldValue.intVal 5000000000 :=
  ⟨by decide, (C3_amended_live_coercions [("n", BsonValue.int64 5000000000)]
      { name := "n", charset := "latin1", value := SqlFieldValue.nullV }
      ("n", BsonValue.int64 5000000000) (by decide)).1⟩

/-! ## C4 — missing `_id` is not a row-conversion failure -/

/-- C4 counterexample: the claim says `convert_document_to_row` reports
failure (non-zero) when the document has no top-level `_id`.
Converting a document without `_id` against a table whose only field
is `_id` (non-null document, valid buffer) returns 0. -/
theorem C4_counterexample_missing_id_returns_zero :
    (convert_document_to_row (some [("a", BsonValue.int32 1)]) true
        [{ name := "_id", charset := "system", value := SqlFieldValue.nullV }]).1 = 0 := by
  rfl

/-- C4 (amended): a missing `_id` makes the identifier helper
`convert_mongodb_id_field` report failure (return 1) and leaves the
identifier field SQL NULL, but `convert_document_to_row` ignores the
helper's result and returns 0 (success); a missing identifier is not
surfaced as a row-conversion failure. -/
theorem C4_amended_missing_id_ignored (doc : BsonDoc) (f : SqlField)
    (table : List SqlField)
    (hno : doc.find? (fun kv => kv.1 == "_id") = none) :
    convert_mongodb_id_field doc f = (1, f) ∧
    (convert_document_to_row (some doc) true table).1 = 0 ∧
    (∀ g ∈ (convert_document_to_row (some doc) true table).2, g.name = "_id" →
        g.value = SqlFieldValue.nullV) := by
  have hid : ∀ f' : SqlField, convert_mongodb_id_field doc f' = (1, f') := by
    intro f'
    simp [convert_mongodb_id_field, hno]
  refine ⟨hid f, rfl, ?_⟩
  intro g hg hgname
  simp only [convert_document_to_row, List.map_map] at hg
  obtain ⟨f', hf', rfl⟩ := List.mem_map.1 hg
  by_cases h1 : f'.name = "_id"
  · simp [Function.comp, beq_iff_eq, h1, hid]
  · by_cases h2 : f'.name = "document"
    · simp [Function.comp, beq_iff_eq, h1, h2] at hgname
    · exfalso
      apply h1
      simp only [Function.comp, beq_iff_eq] at hgname
      rw [if_neg (by simp [h1]), if_neg (by simp [h2])] at hgname
      rw [convert_simple_preserves_name] at hgname
      simpa using hgname

/-- Witness for `C4_amended_missing_id_ignored` at a concrete document
and table. -/
theorem C4_amended_missing_id_ignored_witness :
    (([("a", BsonValue.int32 1)] : BsonDoc).find? (fun kv => kv.1 == "_id") = none) ∧
    convert_mongodb_id_field [("a", BsonValue.int32 1)]
        { name := "_id", charset := "system", value := SqlFieldValue.nullV } =
      (1, { name := "_id", charset := "system", value := SqlFieldValue.nullV }) :=
  ⟨by decide, (C4_amended_missing_id_ignored [("a", BsonValue.int32 1)]
      { name := "_id", charset := "system", value := SqlFieldValue.nullV } [] (by decide)).1⟩

/-! ## C2 — scan start destroys the pushed filter -/

/-- C2: the claim states that a successfully pushed-down filter is
passed to MongoDB as the cursor's find filter at scan start.  Instead
`rnd_init` with `scan = true` first destroys the stored
`pushed_condition` (ha_mongodb_handler.cc:149-158), so the cursor is
created with an empty filter, the stored filter is gone afterwards,
and the COUNT-with-WHERE branch that would have used it is
unreachable; for any non-empty stored filter the created cursor's
filter differs from it. -/
theorem C2_scan_start_drops_pushed_filter (st : HandlerScanState) (f : BsonFilter)
    (count_result : Option Nat) (_hp : st.pushed_condition = some f) :
    (rnd_init st true true count_result).1 = RndInitOutcome.cursorScan [] false ∧
    (rnd_init st true true count_result).2.pushed_condition = none ∧
    (f ≠ [] →
      (rnd_init st true true count_result).1 ≠ RndInitOutcome.cursorScan f false) := by
  refine ⟨?_, ?_, ?_⟩
  · simp [rnd_init]
  · simp [rnd_init]
  · intro hne
    simp [rnd_init]
    intro heq
    exact hne heq

/-- Witness for `C2_scan_start_drops_pushed_filter`: a handler state
holding the stored demo filter. -/
theorem C2_scan_start_drops_pushed_filter_witness :
    ({ count_mode := false, lightweight_count_mode := false,
       consecutive_rnd_next_calls := 0,
       pushed_condition := some [("city", BsonValue.utf8 "Paris")],
       mongo_count_result := 0, mongo_count_returned := 0, scan_position := 0,
       has_collection := true } : HandlerScanState).pushed_condition =
      some [("city", BsonValue.utf8 "Paris")] ∧
    (rnd_init
        { count_mode := false, lightweight_count_mode := false,
          consecutive_rnd_next_calls := 0,
          pushed_condition := some [("city", BsonValue.utf8 "Paris")],
          mongo_count_result := 0, mongo_count_returned := 0, scan_position := 0,
          has_collection := true } true true none).1 =
      RndInitOutcome.cursorScan [] false :=
  ⟨rfl, (C2_scan_start_drops_pushed_filter _ [("city", BsonValue.utf8 "Paris")] none rfl).1⟩

/-! ## C9 — URI round trip: counterexample -/

/-- C9 counterexample: `mongodb://h/db/coll?x=a%26b` is a valid
connection string (option `x` with percent-encoded value `a&b`), but
the rendered driver string `mongodb://h/db?x=a&b` re-parses with
option set `b ↦ "", x ↦ "a"` instead of `x ↦ "a&b"`: the decoded `&`
is re-emitted bare and re-split.  So parse–render–reparse does not
preserve the option set for every valid connection string. -/
theorem C9_counterexample_percent_escaped_option :
    (MongoURIParser.parse "mongodb://h/db/coll?x=a%26b".toList).is_valid = true ∧
    (MongoURIParser.parse "mongodb://h/db/coll?x=a%26b".toList).options =
      [("x".toList, "a&b".toList)] ∧
    (MongoURIParser.parse
        (MongoURIParser.parse "mongodb://h/db/coll?x=a%26b".toList).to_connection_string).options =
      [("b".toList, "".toList), ("x".toList, "a".toList)] ∧
    (MongoURIParser.parse
        (MongoURIParser.parse "mongodb://h/db/coll?x=a%26b".toList).to_connection_string).options ≠
      (MongoURIParser.parse "mongodb://h/db/coll?x=a%26b".toList).options := by
  refine ⟨by decide, by decide, by decide, by decide⟩

/-! ## C9 — string utility lemmas -/

theorem strFind?_of_not_mem (c : Char) (s : Str) (h : c ∉ s) : strFind? c s = none := by
  induction s with
  | nil => rfl
  | cons d rest ih =>
    have hd : ¬d = c := fun he => h (he ▸ List.mem_cons_self _ _)
    simp only [strFind?, if_neg hd, ih (fun hm => h (List.mem_cons_of_mem _ hm)),
      Option.map_none']

theorem strFind?_cons_self (c : Char) (s : Str) : strFind? c (c :: s) = some 0 := by
  simp [strFind?]

theorem strFind?_append_of_not_mem (c : Char) (xs ys : Str) (h : c ∉ xs) :
    strFind? c (xs ++ ys) = (strFind? c ys).map (· + xs.length) := by
  induction xs with
  | nil => simp
  | cons d rest ih =>
    have hd : ¬d = c := fun he => h (he ▸ List.mem_cons_self _ _)
    have ih' := ih (fun hm => h (List.mem_cons_of_mem _ hm))
    simp only [List.cons_append]
    rw [show strFind? c (d :: (rest ++ ys)) = (strFind? c (rest ++ ys)).map (· + 1) from by
      simp [strFind?, hd]]
    rw [ih']
    cases strFind? c ys with
    | none => rfl
    | some v =>
      simp only [Option.map_some', List.length_cons]
      rw [Nat.add_assoc]

theorem digitsToNat_append_singleton (xs : Str) (c : Char) :
    digitsToNat (xs ++ [c]) = digitsToNat xs * 10 + (c.toNat - '0'.toNat) := by
  simp [digitsToNat, List.foldl_append]

theorem isAsciiDigit_not_space (c : Char) (h : isAsciiDigit c = true) :
    isCppSpace c = false := by
  by_contra hsp
  simp only [Bool.not_eq_false] at hsp
  simp only [isCppSpace, Bool.or_eq_true, decide_eq_true_eq] at hsp
  obtain ((((rfl | rfl) | rfl) | rfl) | rfl) | rfl := hsp <;> simp [isAsciiDigit] at h

theorem natToStr_spec (n : Nat) :
    natToStr n ≠ [] ∧ (∀ ch ∈ natToStr n, isAsciiDigit ch = true) ∧
      digitsToNat (natToStr n) = n := by
  induction n using Nat.strong_induction_on with
  | _ n ih =>
    rw [natToStr]
    by_cases h : n < 10
    · simp only [dif_pos h]
      interval_cases n <;> exact ⟨by decide, by decide, by decide⟩
    · simp only [dif_neg h]
      have h10 : n / 10 < n := Nat.div_lt_self (by omega) (by omega)
      obtain ⟨ih1, ih2, ih3⟩ := ih (n / 10) h10
      have hm : n % 10 < 10 := Nat.mod_lt _ (by omega)
      have hchar : isAsciiDigit (Char.ofNat ('0'.toNat + n % 10)) = true ∧
          (Char.ofNat ('0'.toNat + n % 10)).toNat - '0'.toNat = n % 10 := by
        set m := n % 10 with hmdef
        clear_value m
        interval_cases m <;> exact ⟨by decide, by decide⟩
      refine ⟨by simp, ?_, ?_⟩
      · intro ch hch
        rcases List.mem_append.1 hch with hmem | hmem
        · exact ih2 ch hmem
        · simp at hmem
          subst hmem
          exact hchar.1
      · rw [digitsToNat_append_singleton, ih3, hchar.2]
        omega

theorem takeWhile_all_eq (p : Char → Bool) (l : Str) (h : ∀ c ∈ l, p c = true) :
    l.takeWhile p = l := by
  induction l with
  | nil => rfl
  | cons c rest ih =>
    rw [List.takeWhile_cons, if_pos (h c (List.mem_cons_self _ _)),
      ih (fun d hd => h d (List.mem_cons_of_mem _ hd))]


theorem cppStoi_natToStr (n : Nat) (h : (n : Int) ≤ 2147483647) :
    cppStoi (natToStr n) = some (n : Int) := by
  obtain ⟨hne, hdig, hval⟩ := natToStr_spec n
  cases hs : natToStr n with
  | nil => exact absurd hs hne
  | cons a as =>
    rw [hs] at hdig hval
    have ha : isAsciiDigit a = true := hdig a (List.mem_cons_self _ _)
    have hnospace : isCppSpace a = false := isAsciiDigit_not_space a ha
    have hm : ¬a = '-' ∧ ¬a = '+' := by
      constructor <;> rintro rfl <;> simp [isAsciiDigit] at ha
    have hc1 : ¬(((a :: as) : Str).head? = some '-') := by simp [hm.1]
    have hc2 : ¬(((a :: as) : Str).head? = some '-' ∨ ((a :: as) : Str).head? = some '+') := by
      simp [hm.1, hm.2]
    have hds : ¬((a :: as) : Str) = [] := by simp
    simp only [cppStoi, hs, List.dropWhile_cons, hnospace, Bool.false_eq_true, if_false]
    rw [if_neg hc1, if_neg hc2]
    simp only [cppStoiCore]
    rw [takeWhile_all_eq isAsciiDigit (a :: as) hdig, if_neg hds, one_mul, hval,
      if_neg (by omega)]

theorem cppStoi_intToStr (i : Int) (hlo : -2147483648 ≤ i) (hhi : i ≤ 2147483647) :
    cppStoi (intToStr i) = some i := by
  by_cases hneg : i < 0
  · have hmn : ((-i).toNat : Int) = -i := Int.toNat_of_nonneg (by omega)
    obtain ⟨hne, hdig, hval⟩ := natToStr_spec (-i).toNat
    simp only [intToStr, if_pos hneg]
    cases hs : natToStr (-i).toNat with
    | nil => exact absurd hs hne
    | cons a as =>
      rw [hs] at hdig hval
      have ha : isAsciiDigit a = true := hdig a (List.mem_cons_self _ _)
      have hmspace : isCppSpace '-' = false := by decide
      have hds : ¬((a :: as) : Str) = [] := by simp
      simp only [cppStoi, List.dropWhile_cons, hmspace, Bool.false_eq_true, if_false]
      rw [if_pos (by simp), if_pos (by simp)]
      simp only [List.tail_cons, cppStoiCore]
      rw [takeWhile_all_eq isAsciiDigit (a :: as) hdig, if_neg hds, hval,
        if_neg (by omega)]
      congr 1
      omega
  · have h0 : 0 ≤ i := by omega
    have hmn : (i.toNat : Int) = i := Int.toNat_of_nonneg h0
    simp only [intToStr, if_neg hneg]
    rw [cppStoi_natToStr i.toNat (by omega), hmn]

/-- `url_decode` is the identity on strings containing neither `%`
nor `+`. -/
theorem url_decode_id (s : Str) (h : ∀ c ∈ s, ¬(c = '%' ∨ c = '+')) :
    url_decode s = s := by
  induction s with
  | nil => rfl
  | cons c rest ih =>
    have hc := h c (List.mem_cons_self _ _)
    have hrest := fun d hd => h d (List.mem_cons_of_mem _ hd)
    rw [url_decode.eq_def]
    split
    next heq =>
      exact absurd heq (by simp)
    next a b r2 heq =>
      obtain ⟨h1, -⟩ := List.cons.inj heq
      exact absurd (Or.inl h1) hc
    next r2 heq =>
      obtain ⟨h1, -⟩ := List.cons.inj heq
      exact absurd (Or.inr h1) hc
    next d r2 hne1 hne2 heq =>
      obtain ⟨h1, h2⟩ := List.cons.inj heq
      subst h1
      subst h2
      rw [ih hrest]

theorem splitSegs_ne_nil (d : Char) (s : Str) : splitSegs d s ≠ [] := by
  cases s with
  | nil => simp [splitSegs]
  | cons c rest =>
    by_cases hc : c = d
    · simp [splitSegs, hc]
    · simp only [splitSegs, if_neg hc]
      cases splitSegs d rest <;> simp

/-- A delimiter-free string splits into itself. -/
theorem splitSegs_no_delim (d : Char) (s : Str) (h : d ∉ s) : splitSegs d s = [s] := by
  induction s with
  | nil => rfl
  | cons c rest ih =>
    have hc : ¬c = d := fun he => h (he ▸ List.mem_cons_self _ _)
    have ih' := ih (fun hm => h (List.mem_cons_of_mem _ hm))
    simp only [splitSegs, if_neg hc, ih']

theorem splitSegs_append_delim (d : Char) (xs t : Str) (h : d ∉ xs) :
    splitSegs d (xs ++ d :: t) = xs :: splitSegs d t := by
  induction xs with
  | nil => simp [splitSegs]
  | cons c rest ih =>
    have hc : ¬c = d := fun he => h (he ▸ List.mem_cons_self _ _)
    have ih' := ih (fun hm => h (List.mem_cons_of_mem _ hm))
    simp only [List.cons_append, splitSegs, if_neg hc]
    have ih2 : splitSegs d (rest.append (d :: t)) = rest :: splitSegs d t := ih'
    rw [ih2]

theorem splitSegs_joinWith (d : Char) (parts : List Str) (hne : parts ≠ [])
    (h : ∀ p ∈ parts, d ∉ p) : splitSegs d (joinWith d parts) = parts := by
  induction parts with
  | nil => exact absurd rfl hne
  | cons p ps ih =>
    cases ps with
    | nil =>
      simp only [joinWith]
      exact splitSegs_no_delim d p (h p (List.mem_cons_self _ _))
    | cons q qs =>
      have hjoin : joinWith d (p :: q :: qs) = p ++ d :: joinWith d (q :: qs) := rfl
      rw [hjoin, splitSegs_append_delim d p _ (h p (List.mem_cons_self _ _))]
      rw [ih (by simp) (fun r hr => h r (List.mem_cons_of_mem _ hr))]

/-- `split_string` undoes `joinWith` when every part is nonempty and
free of the delimiter. -/
theorem split_string_joinWith (d : Char) (parts : List Str) (hne : parts ≠ [])
    (hnonempty : ∀ p ∈ parts, p ≠ []) (h : ∀ p ∈ parts, d ∉ p) :
    split_string (joinWith d parts) d = parts := by
  rw [split_string, splitSegs_joinWith d parts hne h]
  exact List.filter_eq_self.2 (fun p hp => by simpa using hnonempty p hp)

theorem lexLt_irrefl (s : Str) : lexLt s s = false := by
  induction s with
  | nil => rfl
  | cons c rest ih => simp [lexLt, ih]

theorem lexLt_asymm (a b : Str) (h : lexLt a b = true) : lexLt b a = false := by
  induction a generalizing b with
  | nil =>
    cases b with
    | nil => simp [lexLt] at h
    | cons c rest => rfl
  | cons c rest ih =>
    cases b with
    | nil => simp [lexLt] at h
    | cons d bs =>
      simp only [lexLt] at h ⊢
      by_cases hcd : c < d
      · rw [if_neg (lt_asymm hcd), if_pos hcd]
      · rw [if_neg hcd] at h
        by_cases hdc : d < c
        · rw [if_pos hdc] at h
          simp at h
        · rw [if_neg hdc] at h
          rw [if_neg hdc, if_neg hcd]
          exact ih bs h

theorem lexLt_trans (a b c : Str) (hab : lexLt a b = true) (hbc : lexLt b c = true) :
    lexLt a c = true := by
  induction a generalizing b c with
  | nil =>
    cases b with
    | nil => simp [lexLt] at hab
    | cons d bs =>
      cases c with
      | nil => simp [lexLt] at hbc
      | cons e cs => rfl
  | cons x as ih =>
    cases b with
    | nil => simp [lexLt] at hab
    | cons d bs =>
      cases c with
      | nil => simp [lexLt] at hbc
      | cons e cs =>
        simp only [lexLt] at hab hbc ⊢
        by_cases hxd : x < d
        · by_cases hde : d < e
          · rw [if_pos (lt_trans hxd hde)]
          · rw [if_neg hde] at hbc
            by_cases hed : e < d
            · rw [if_pos hed] at hbc
              simp at hbc
            · have hde2 : d = e := le_antisymm (not_lt.1 hed) (not_lt.1 hde)
              subst hde2
              rw [if_pos hxd]
        · rw [if_neg hxd] at hab
          by_cases hdx : d < x
          · rw [if_pos hdx] at hab
            simp at hab
          · rw [if_neg hdx] at hab
            have hxeq : x = d := le_antisymm (not_lt.1 hdx) (not_lt.1 hxd)
            subst hxeq
            by_cases hxe : x < e
            · rw [if_pos hxe]
            · rw [if_neg hxe] at hbc ⊢
              by_cases hex : e < x
              · rw [if_pos hex] at hbc
                simp at hbc
              · rw [if_neg hex] at hbc ⊢
                exact ih bs cs hab hbc

theorem lexLt_total (a b : Str) : a = b ∨ lexLt a b = true ∨ lexLt b a = true := by
  induction a generalizing b with
  | nil =>
    cases b with
    | nil => exact Or.inl rfl
    | cons d bs => exact Or.inr (Or.inl rfl)
  | cons c as ih =>
    cases b with
    | nil => exact Or.inr (Or.inr rfl)
    | cons d bs =>
      rcases lt_trichotomy c d with hlt | heq | hgt
      · exact Or.inr (Or.inl (by simp [lexLt, hlt]))
      · subst heq
        rcases ih bs with h | h | h
        · exact Or.inl (by rw [h])
        · exact Or.inr (Or.inl (by simp [lexLt, lt_irrefl, h]))
        · exact Or.inr (Or.inr (by simp [lexLt, lt_irrefl, h]))
      · exact Or.inr (Or.inr (by simp [lexLt, hgt]))

theorem omapInsert_append_gt (m : List (Str × Str)) (k v : Str)
    (h : ∀ e ∈ m, lexLt e.1 k = true) : omapInsert m k v = m ++ [(k, v)] := by
  induction m with
  | nil => rfl
  | cons e rest ih =>
    obtain ⟨k', v'⟩ := e
    have hk' : lexLt k' k = true := h (k', v') (List.mem_cons_self _ _)
    have hne : ¬k = k' := by
      rintro rfl
      rw [lexLt_irrefl] at hk'
      exact absurd hk' (by simp)
    have hnlt : ¬lexLt k k' = true := by
      rw [lexLt_asymm k' k hk']
      simp
    simp only [omapInsert, if_neg hne, if_neg hnlt]
    rw [ih (fun e' he' => h e' (List.mem_cons_of_mem _ he'))]
    rfl

theorem omapSorted_tail (e : Str × Str) (l : List (Str × Str))
    (h : omapSorted (e :: l) = true) : omapSorted l = true := by
  cases l with
  | nil => rfl
  | cons f rest =>
    simp only [omapSorted, Bool.and_eq_true] at h
    exact h.2

theorem omapSorted_head_lt (e : Str × Str) (l : List (Str × Str))
    (h : omapSorted (e :: l) = true) : ∀ f ∈ l, lexLt e.1 f.1 = true := by
  induction l generalizing e with
  | nil => intro f hf; simp at hf
  | cons g rest ih =>
    intro f hf
    have hadj : lexLt e.1 g.1 = true := by
      simp only [omapSorted, Bool.and_eq_true] at h
      exact h.1
    rcases List.mem_cons.1 hf with rfl | hf'
    · exact hadj
    · exact lexLt_trans _ _ _ hadj (ih g (omapSorted_tail e _ h) f hf')

theorem foldl_omapInsert_sorted_acc (l acc : List (Str × Str))
    (hsort : omapSorted l = true)
    (hacc : ∀ e ∈ acc, ∀ f ∈ l, lexLt e.1 f.1 = true) :
    List.foldl (fun m kv => omapInsert m kv.1 kv.2) acc l = acc ++ l := by
  induction l generalizing acc with
  | nil => simp
  | cons hd tl ih =>
    have hstep : omapInsert acc hd.1 hd.2 = acc ++ [hd] := by
      rw [omapInsert_append_gt acc hd.1 hd.2
        (fun e he => hacc e he hd (List.mem_cons_self _ _))]
    rw [List.foldl_cons, hstep,
      ih (acc ++ [hd]) (omapSorted_tail hd tl hsort) ?_, List.append_assoc,
      List.singleton_append]
    intro e he f hf
    rcases List.mem_append.1 he with he' | he'
    · exact hacc e he' f (List.mem_cons_of_mem _ hf)
    · simp at he'
      rw [he']
      exact omapSorted_head_lt hd tl hsort f hf

theorem foldl_omapInsert_sorted (l : List (Str × Str)) (hsort : omapSorted l = true) :
    List.foldl (fun m kv => omapInsert m kv.1 kv.2) [] l = l := by
  rw [foldl_omapInsert_sorted_acc l [] hsort (by intro e he; simp at he)]
  rfl

theorem omapInsert_head (m : List (Str × Str)) (k v : Str) :
    (m = [] ∧ omapInsert m k v = [(k, v)]) ∨
    (∃ e rest, m = e :: rest ∧
      ((omapInsert m k v).head? = some (k, v) ∨ (omapInsert m k v).head? = some e)) := by
  cases m with
  | nil => exact Or.inl ⟨rfl, rfl⟩
  | cons e rest =>
    obtain ⟨k', v'⟩ := e
    refine Or.inr ⟨(k', v'), rest, rfl, ?_⟩
    by_cases h1 : k = k'
    · simp [omapInsert, h1]
    · by_cases h2 : lexLt k k' = true
      · simp [omapInsert, h1, h2]
      · simp [omapInsert, h1, h2]

theorem omapSorted_insert (m : List (Str × Str)) (k v : Str)
    (h : omapSorted m = true) : omapSorted (omapInsert m k v) = true := by
  induction m with
  | nil => rfl
  | cons e rest ih =>
    obtain ⟨k', v'⟩ := e
    by_cases h1 : k = k'
    · simp only [omapInsert, if_pos h1]
      subst h1
      cases rest with
      | nil => rfl
      | cons f rest' =>
        simp only [omapSorted, Bool.and_eq_true] at h ⊢
        exact h
    · by_cases h2 : lexLt k k' = true
      · simp only [omapInsert, if_neg h1, if_pos h2]
        simp only [omapSorted, Bool.and_eq_true]
        exact ⟨h2, h⟩
      · simp only [omapInsert, if_neg h1, if_neg h2]
        have hk'k : lexLt k' k = true := by
          rcases lexLt_total k k' with h3 | h3 | h3
          · exact absurd h3 h1
          · exact absurd h3 h2
          · exact h3
        have hrest := omapSorted_tail _ _ h
        have hins := ih hrest
        rcases omapInsert_head rest k v with ⟨hnil, hval⟩ | ⟨f, rest2, hm, hhead⟩
        · subst hnil
          rw [hval]
          simp [omapSorted, hk'k]
        · cases hto : omapInsert rest k v with
          | nil =>
            rw [hto] at hins
            rfl
          | cons g rest3 =>
            have hg : g = (k, v) ∨ g = f := by
              rw [hto] at hhead
              simp at hhead
              rcases hhead with h4 | h4
              · exact Or.inl h4
              · exact Or.inr h4
            have hgood : lexLt k' g.1 = true := by
              rcases hg with hg' | hg'
              · rw [hg']
                exact hk'k
              · rw [hg']
                exact omapSorted_head_lt (k', v') rest h f
                  (by rw [hm]; exact List.mem_cons_self _ _)
            rw [hto] at hins
            cases rest3 with
            | nil => simp [omapSorted, hgood]
            | cons g2 rest4 =>
              simp only [omapSorted, Bool.and_eq_true] at hins ⊢
              exact ⟨hgood, hins⟩

theorem dropLast_append_getLastD (l : Str) (d : Char) (h : l ≠ []) :
    l.dropLast ++ [l.getLastD d] = l := by
  induction l generalizing d with
  | nil => exact absurd rfl h
  | cons x rest ih =>
    cases rest with
    | nil => rfl
    | cons y l' =>
      show x :: ((y :: l').dropLast ++ [(y :: l').getLastD x]) = x :: y :: l'
      rw [ih x (by simp)]

theorem isAsciiDigit_isAsciiAlnum (c : Char) (h : isAsciiDigit c = true) :
    isAsciiAlnum c = true := by
  simp only [isAsciiDigit, Bool.and_eq_true, decide_eq_true_eq] at h
  simp only [isAsciiAlnum, Bool.or_eq_true, Bool.and_eq_true, decide_eq_true_eq]
  tauto

theorem hostnameBodyOk_chars (s : Str) (h : hostnameBodyOk s = true) :
    ∀ c ∈ s, isAsciiAlnum c = true ∨ c = '-' ∨ c = '.' := by
  cases s with
  | nil => intro c hc; simp at hc
  | cons a rest =>
    cases rest with
    | nil =>
      intro c hc
      simp at hc
      subst hc
      exact Or.inl (by simpa [hostnameBodyOk] using h)
    | cons b rest' =>
      simp only [hostnameBodyOk, Bool.and_eq_true] at h
      obtain ⟨⟨⟨ha, hlast⟩, hmid⟩, hlen⟩ := h
      intro c hc
      rcases List.mem_cons.1 hc with rfl | hc'
      · exact Or.inl ha
      · rw [← dropLast_append_getLastD (b :: rest') ' ' (by simp)] at hc'
        rcases List.mem_append.1 hc' with hm | hm
        · have := List.all_eq_true.1 hmid c hm
          simp only [Bool.or_eq_true, decide_eq_true_eq] at this
          tauto
        · simp at hm
          subst hm
          exact Or.inl hlast

theorem validate_hostname_chars (h : Str) (hv : validate_hostname h = true) :
    ∀ c ∈ h, isAsciiAlnum c = true ∨ c = '-' ∨ c = '.' := by
  unfold validate_hostname at hv
  split at hv
  · simp at hv
  · split at hv
    next heq =>
      intro c hc
      rw [heq] at hc
      have hall : ∀ c ∈ ("localhost".toList : Str), isAsciiAlnum c = true := by decide
      exact Or.inl (hall c hc)
    next => exact hostnameBodyOk_chars h hv

theorem renderHost_chars (hp : Str × Int) (hhost : validate_hostname hp.1 = true)
    (hport : validate_port hp.2 = true) :
    ∀ c ∈ renderHost hp, isAsciiAlnum c = true ∨ c = '-' ∨ c = '.' ∨ c = ':' := by
  intro c hc
  unfold renderHost at hc
  rcases List.mem_append.1 hc with hc1 | hc2
  · rcases validate_hostname_chars hp.1 hhost c hc1 with h | h | h
    · exact Or.inl h
    · exact Or.inr (Or.inl h)
    · exact Or.inr (Or.inr (Or.inl h))
  · split at hc2
    next hne =>
      rcases List.mem_cons.1 hc2 with rfl | hc3
      · exact Or.inr (Or.inr (Or.inr rfl))
      · have hpos : ¬hp.2 < 0 := by
          simp only [validate_port, Bool.and_eq_true, decide_eq_true_eq] at hport
          omega
        rw [intToStr, if_neg hpos] at hc3
        exact Or.inl (isAsciiDigit_isAsciiAlnum c ((natToStr_spec hp.2.toNat).2.1 c hc3))
    next => simp at hc2

theorem joinWith_chars (P : Char → Prop) (d : Char) (parts : List Str)
    (h : ∀ p ∈ parts, ∀ c ∈ p, P c) :
    ∀ c ∈ joinWith d parts, P c ∨ c = d := by
  induction parts with
  | nil => intro c hc; simp [joinWith] at hc
  | cons p ps ih =>
    cases ps with
    | nil =>
      intro c hc
      exact Or.inl (h p (List.mem_cons_self _ _) c hc)
    | cons q qs =>
      intro c hc
      have hjoin : joinWith d (p :: q :: qs) = p ++ d :: joinWith d (q :: qs) := rfl
      rw [hjoin] at hc
      rcases List.mem_append.1 hc with hc1 | hc2
      · exact Or.inl (h p (List.mem_cons_self _ _) c hc1)
      · rcases List.mem_cons.1 hc2 with rfl | hc3
        · exact Or.inr rfl
        · exact ih (fun r hr => h r (List.mem_cons_of_mem _ hr)) c hc3

theorem validate_database_name_chars (db : Str) (hv : validate_database_name db = true) :
    ∀ c ∈ db, ¬(c = '/' ∨ c = '?' ∨ c = ':') := by
  unfold validate_database_name at hv
  split at hv
  · simp at hv
  · intro c hc hbad
    have := List.all_eq_true.1 hv c hc
    rcases hbad with rfl | rfl | rfl <;> simp [dbInvalidChars] at this

theorem validate_hostname_ne_nil (h : Str) (hv : validate_hostname h = true) : h ≠ [] := by
  intro hnil
  subst hnil
  simp [validate_hostname] at hv

/-! ## C9 — behaviour of the parser stages on rendered strings -/

theorem parse_protocol_render_plain (rest : Str) (r : MongoURI) :
    parse_protocol ("mongodb://".toList ++ rest) r = .ok ({ r with is_srv := false }, rest) := by
  have h14 : ¬(("mongodb://".toList ++ rest).take 14 = "mongodb+srv://".toList) := by
    intro heq
    have h7 := congrArg (fun l => l[7]?) heq
    simp only at h7
    rw [List.getElem?_take, if_pos (by omega), List.getElem?_append,
      if_pos (by decide)] at h7
    exact absurd h7 (by decide)
  have h10 : ("mongodb://".toList ++ rest).take 10 = "mongodb://".toList :=
    List.take_left' (by decide)
  simp only [parse_protocol, if_neg h14, if_pos h10]
  rw [List.drop_left' (by decide)]

theorem parse_protocol_render_srv (rest : Str) (r : MongoURI) :
    parse_protocol ("mongodb+srv://".toList ++ rest) r =
      .ok ({ r with is_srv := true }, rest) := by
  have h14 : ("mongodb+srv://".toList ++ rest).take 14 = "mongodb+srv://".toList :=
    List.take_left' (by decide)
  simp only [parse_protocol, if_pos h14]
  rw [List.drop_left' (by decide)]

theorem parse_credentials_skip (xs tail : Str) (r : MongoURI)
    (hat : '@' ∉ xs) (hslash : '/' ∉ xs) :
    parse_credentials (xs ++ '/' :: tail) r = .ok (r, xs ++ '/' :: tail) := by
  have hslashpos : strFind? '/' (xs ++ '/' :: tail) = some xs.length := by
    rw [strFind?_append_of_not_mem _ _ _ hslash, strFind?_cons_self]
    simp
  unfold parse_credentials
  split
  next => rfl
  next a hfind =>
    have hafind := hfind
    rw [strFind?_append_of_not_mem _ _ _ hat,
      show strFind? '@' ('/' :: tail) = (strFind? '@' tail).map (· + 1) from by
        simp [strFind?]] at hafind
    have hagt : xs.length < a := by
      cases hj : strFind? '@' tail with
      | none => rw [hj] at hafind; simp at hafind
      | some j =>
        rw [hj] at hafind
        simp at hafind
        omega
    simp only [hslashpos, Option.getD_some]
    rw [if_pos (lt_of_le_of_lt (min_le_left _ _) hagt)]

theorem parse_credentials_consume (creds tail : Str) (r : MongoURI)
    (hat : '@' ∉ creds) (hslash : '/' ∉ creds) (hq : '?' ∉ creds) :
    ∃ r', parse_credentials (creds ++ '@' :: tail) r = .ok (r', tail) ∧
      r'.is_srv = r.is_srv ∧ r'.auth_source = r.auth_source ∧ r'.hosts = r.hosts ∧
      r'.replica_set = r.replica_set ∧ r'.database = r.database ∧
      r'.collection = r.collection ∧ r'.ssl = r.ssl ∧
      r'.connect_timeout_ms = r.connect_timeout_ms ∧
      r'.socket_timeout_ms = r.socket_timeout_ms ∧ r'.options = r.options ∧
      r'.is_valid = r.is_valid := by
  have hfind : strFind? '@' (creds ++ '@' :: tail) = some creds.length := by
    rw [strFind?_append_of_not_mem _ _ _ hat, strFind?_cons_self]
    simp
  have hslash2 : creds.length <
      (strFind? '/' (creds ++ '@' :: tail)).getD (creds ++ '@' :: tail).length := by
    rw [strFind?_append_of_not_mem _ _ _ hslash,
      show strFind? '/' ('@' :: tail) = (strFind? '/' tail).map (· + 1) from by
        simp [strFind?]]
    cases strFind? '/' tail with
    | none =>
      simp only [Option.map_none', Option.getD_none, List.length_append, List.length_cons]
      omega
    | some j =>
      simp only [Option.map_some', Option.getD_some]
      omega
  have hq2 : creds.length <
      (strFind? '?' (creds ++ '@' :: tail)).getD (creds ++ '@' :: tail).length := by
    rw [strFind?_append_of_not_mem _ _ _ hq,
      show strFind? '?' ('@' :: tail) = (strFind? '?' tail).map (· + 1) from by
        simp [strFind?]]
    cases strFind? '?' tail with
    | none =>
      simp only [Option.map_none', Option.getD_none, List.length_append, List.length_cons]
      omega
    | some j =>
      simp only [Option.map_some', Option.getD_some]
      omega
  have htake : (creds ++ '@' :: tail).take creds.length = creds := List.take_left creds _
  have hdrop : (creds ++ '@' :: tail).drop (creds.length + 1) = tail := by
    rw [show creds ++ '@' :: tail = (creds ++ ['@']) ++ tail from by simp]
    exact List.drop_left' (by simp)
  unfold parse_credentials
  split
  next hnone => rw [hfind] at hnone; exact absurd hnone (by simp)
  next a hfind2 =>
    rw [hfind] at hfind2
    have ha : a = creds.length := by
      have := Option.some.inj hfind2
      omega
    subst ha
    rw [if_neg (by simp only [not_lt]; exact le_min (le_of_lt hslash2) (le_of_lt hq2))]
    rw [htake, hdrop]
    dsimp only
    cases hcolon : strFind? ':' creds with
    | some cp =>
      exact ⟨{ r with username := url_decode (creds.take cp), password := url_decode (creds.drop (cp + 1)) }, rfl, rfl, rfl, rfl, rfl, rfl, rfl, rfl, rfl, rfl, rfl, rfl⟩
    | none =>
      exact ⟨{ r with username := url_decode creds }, rfl, rfl, rfl, rfl, rfl, rfl, rfl, rfl, rfl, rfl, rfl, rfl⟩

theorem parse_one_host_render (h : Str × Int) (hhost : validate_hostname h.1 = true)
    (hport : validate_port h.2 = true) : parse_one_host (renderHost h) = .ok h := by
  obtain ⟨hn, p⟩ := h
  have hnocolon : ':' ∉ hn := by
    intro hm
    rcases validate_hostname_chars hn hhost ':' hm with hx | hx | hx <;>
      exact absurd hx (by decide)
  by_cases hdef : p = 27017
  · subst hdef
    have hr : renderHost (hn, 27017) = hn := by simp [renderHost]
    rw [hr]
    unfold parse_one_host
    rw [strFind?_of_not_mem ':' hn hnocolon]
    dsimp only
    rw [if_neg (by simp [hhost]), if_neg (by decide)]
  · have hr : renderHost (hn, p) = hn ++ ':' :: intToStr p := by simp [renderHost, hdef]
    rw [hr]
    have hlo : -2147483648 ≤ p := by
      simp only [validate_port, Bool.and_eq_true, decide_eq_true_eq] at hport
      omega
    have hhi : p ≤ 2147483647 := by
      simp only [validate_port, Bool.and_eq_true, decide_eq_true_eq] at hport
      omega
    have hdrop : (hn ++ ':' :: intToStr p).drop (hn.length + 1) = intToStr p := by
      rw [show hn ++ ':' :: intToStr p = (hn ++ [':']) ++ intToStr p from by simp]
      exact List.drop_left' (by simp)
    have htake : (hn ++ ':' :: intToStr p).take hn.length = hn := List.take_left hn _
    unfold parse_one_host
    rw [strFind?_append_of_not_mem _ _ _ hnocolon, strFind?_cons_self]
    simp only [Option.map_some', Nat.zero_add]
    rw [hdrop, htake, cppStoi_intToStr p hlo hhi]
    dsimp only
    rw [if_neg (by simp [hhost]), if_neg (by simp [hport])]

theorem parse_hosts_loop_render (hosts : List (Str × Int)) (r : MongoURI)
    (hvalid : ∀ h ∈ hosts, validate_hostname h.1 = true ∧ validate_port h.2 = true) :
    parse_hosts_loop (hosts.map renderHost) r = .ok { r with hosts := r.hosts ++ hosts } := by
  induction hosts generalizing r with
  | nil => simp [parse_hosts_loop]
  | cons h hs ih =>
    have hh := hvalid h (List.mem_cons_self _ _)
    simp only [List.map_cons, parse_hosts_loop, parse_one_host_render h hh.1 hh.2]
    rw [ih { r with hosts := r.hosts ++ [h] }
      (fun h' hm => hvalid h' (List.mem_cons_of_mem _ hm))]
    simp [List.append_assoc]

theorem renderHost_ne_nil (h : Str × Int) (hhost : validate_hostname h.1 = true) :
    renderHost h ≠ [] := by
  have := validate_hostname_ne_nil h.1 hhost
  unfold renderHost
  intro hc
  rcases List.append_eq_nil.1 hc with ⟨h1, -⟩
  exact this h1

theorem hostsPart_chars (hosts : List (Str × Int))
    (hvalid : ∀ h ∈ hosts, validate_hostname h.1 = true ∧ validate_port h.2 = true) :
    ∀ c ∈ joinWith ',' (hosts.map renderHost),
      isAsciiAlnum c = true ∨ c = '-' ∨ c = '.' ∨ c = ':' ∨ c = ',' := by
  intro c hc
  have hmain := joinWith_chars
    (fun c => isAsciiAlnum c = true ∨ c = '-' ∨ c = '.' ∨ c = ':') ','
    (hosts.map renderHost) ?_ c hc
  · tauto
  · intro p hp
    obtain ⟨h, hh, rfl⟩ := List.mem_map.1 hp
    exact renderHost_chars h (hvalid h hh).1 (hvalid h hh).2

theorem hostsPart_no_specials (hosts : List (Str × Int))
    (hvalid : ∀ h ∈ hosts, validate_hostname h.1 = true ∧ validate_port h.2 = true) :
    '@' ∉ joinWith ',' (hosts.map renderHost) ∧
    '/' ∉ joinWith ',' (hosts.map renderHost) ∧
    '?' ∉ joinWith ',' (hosts.map renderHost) := by
  refine ⟨?_, ?_, ?_⟩ <;>
    · intro hm
      rcases hostsPart_chars hosts hvalid _ hm with hx | hx | hx | hx | hx <;>
        exact absurd hx (by decide)

theorem joinWith_ne_nil_of_head (d : Char) (p : Str) (ps : List Str) (hp : p ≠ []) :
    joinWith d (p :: ps) ≠ [] := by
  cases ps with
  | nil => exact hp
  | cons q qs =>
    show p ++ d :: joinWith d (q :: qs) ≠ []
    simp

theorem parse_hosts_render (hosts : List (Str × Int)) (tail : Str) (r : MongoURI)
    (hr : r.hosts = []) (hne : hosts ≠ [])
    (hvalid : ∀ h ∈ hosts, validate_hostname h.1 = true ∧ validate_port h.2 = true) :
    parse_hosts (joinWith ',' (hosts.map renderHost) ++ '/' :: tail) r =
      .ok ({ r with hosts := hosts }, '/' :: tail) := by
  obtain ⟨hat, hslash, hq⟩ := hostsPart_no_specials hosts hvalid
  have hfind : strFind? '/' (joinWith ',' (hosts.map renderHost) ++ '/' :: tail) =
      some (joinWith ',' (hosts.map renderHost)).length := by
    rw [strFind?_append_of_not_mem _ _ _ hslash, strFind?_cons_self]
    simp
  have hpartne : joinWith ',' (hosts.map renderHost) ≠ [] := by
    cases hosts with
    | nil => exact absurd rfl hne
    | cons h hs =>
      exact joinWith_ne_nil_of_head ',' _ _ (renderHost_ne_nil h (hvalid h (List.mem_cons_self _ _)).1)
  have hsplit : split_string (joinWith ',' (hosts.map renderHost)) ',' =
      hosts.map renderHost := by
    apply split_string_joinWith
    · simp [hne]
    · intro p hp
      obtain ⟨h, hh, rfl⟩ := List.mem_map.1 hp
      exact renderHost_ne_nil h (hvalid h hh).1
    · intro p hp hcm
      obtain ⟨h, hh, rfl⟩ := List.mem_map.1 hp
      rcases renderHost_chars h (hvalid h hh).1 (hvalid h hh).2 ',' hcm with hx | hx | hx | hx <;>
        exact absurd hx (by decide)
  unfold parse_hosts
  rw [hfind]
  dsimp only
  rw [List.take_left, List.drop_left]
  rw [if_neg (by simp [hpartne]), hsplit, parse_hosts_loop_render hosts r hvalid]
  rw [hr]
  rfl

theorem parse_database_render (db tail : Str) (r : MongoURI)
    (hdb : validate_database_name db = true) (hcoll : r.collection = [])
    (htail : tail = [] ∨ ∃ t, tail = '?' :: t) :
    parse_database_collection ('/' :: (db ++ tail)) r =
      .ok ({ r with database := db }, tail) := by
  have hch := validate_database_name_chars db hdb
  have hslash : '/' ∉ db := fun hm => hch '/' hm (Or.inl rfl)
  have hq : '?' ∉ db := fun hm => hch '?' hm (Or.inr (Or.inl rfl))
  unfold parse_database_collection
  split
  next rest₁ heq =>
    obtain ⟨-, h2⟩ := List.cons.inj heq
    subst h2
    rcases htail with rfl | ⟨t, rfl⟩
    · simp only [List.append_nil]
      rw [strFind?_of_not_mem '?' db hq]
      simp only [Option.getD_none]
      rw [List.take_length, List.drop_length, strFind?_of_not_mem '/' db hslash]
      dsimp only
      rw [if_neg (by simp [hdb]), if_neg (by simp [hcoll])]
    · rw [show strFind? '?' (db ++ '?' :: t) = some db.length from by
        rw [strFind?_append_of_not_mem _ _ _ hq, strFind?_cons_self]; simp]
      simp only [Option.getD_some]
      rw [List.take_left, List.drop_left, strFind?_of_not_mem '/' db hslash]
      dsimp only
      rw [if_neg (by simp [hdb]), if_neg (by simp [hcoll])]
  next hnm => exact absurd rfl (hnm (db ++ tail))

/-! Options stage -/

theorem split_key_value_render (k v : Str) (hk : '=' ∉ k) :
    split_key_value (k ++ '=' :: v) '=' = (k, v) := by
  unfold split_key_value
  rw [strFind?_append_of_not_mem _ _ _ hk, strFind?_cons_self]
  simp only [Option.map_some', Nat.zero_add]
  rw [List.take_left]
  rw [show k ++ '=' :: v = (k ++ ['=']) ++ v from by simp]
  rw [List.drop_left' (by simp)]

theorem url_decode_id_of_value_safe (v : Str) (h : optValueSafe v = true) :
    url_decode v = v := by
  apply url_decode_id
  intro c hc hbad
  have := List.all_eq_true.1 h c hc
  simp only [decide_eq_true_eq] at this
  exact this (by tauto)

theorem url_decode_id_of_key_safe (k : Str) (h : optKeyCharsSafe k = true) :
    url_decode k = k := by
  apply url_decode_id
  intro c hc hbad
  have := List.all_eq_true.1 h c hc
  simp only [decide_eq_true_eq] at this
  exact this (by tauto)

theorem intToStr_no_escape (i : Int) : ∀ c ∈ intToStr i, ¬(c = '%' ∨ c = '+') := by
  intro c hc hbad
  have hdigit : isAsciiDigit c = true := by
    unfold intToStr at hc
    split at hc
    · rcases List.mem_cons.1 hc with rfl | hc'
      · rcases hbad with h | h <;> simp at h
      · exact (natToStr_spec _).2.1 c hc'
    · exact (natToStr_spec _).2.1 c hc
  rcases hbad with rfl | rfl <;> simp [isAsciiDigit] at hdigit

theorem url_decode_intToStr (i : Int) : url_decode (intToStr i) = intToStr i :=
  url_decode_id _ (intToStr_no_escape i)

theorem parse_options_loop_append (xs ys : List Str) (r r' : MongoURI)
    (h : parse_options_loop xs r = .ok r') :
    parse_options_loop (xs ++ ys) r = parse_options_loop ys r' := by
  induction xs generalizing r with
  | nil =>
    simp only [parse_options_loop] at h
    cases h
    simp
  | cons x xs' ih =>
    rw [List.cons_append]
    rw [parse_options_loop.eq_def] at h
    conv_lhs => rw [parse_options_loop.eq_def]
    dsimp only at h ⊢
    by_cases h1 : (split_key_value x '=').1 = []
    · rw [if_pos h1] at h ⊢
      exact ih _ h
    · rw [if_neg h1] at h ⊢
      by_cases h2 : url_decode (split_key_value x '=').1 = "authSource".toList
      · rw [if_pos h2] at h ⊢
        exact ih _ h
      · rw [if_neg h2] at h ⊢
        by_cases h3 : url_decode (split_key_value x '=').1 = "replicaSet".toList
        · rw [if_pos h3] at h ⊢
          exact ih _ h
        · rw [if_neg h3] at h ⊢
          by_cases h4 : url_decode (split_key_value x '=').1 = "ssl".toList ∨
              url_decode (split_key_value x '=').1 = "tls".toList
          · rw [if_pos h4] at h ⊢
            exact ih _ h
          · rw [if_neg h4] at h ⊢
            by_cases h5 : url_decode (split_key_value x '=').1 = "connectTimeoutMS".toList
            · rw [if_pos h5] at h ⊢
              cases hstoi : cppStoi (url_decode (split_key_value x '=').2) with
              | none => rw [hstoi] at h; exact absurd h (by simp)
              | some val =>
                rw [hstoi] at h
                dsimp only at h ⊢
                exact ih _ h
            · rw [if_neg h5] at h ⊢
              by_cases h6 : url_decode (split_key_value x '=').1 = "socketTimeoutMS".toList
              · rw [if_pos h6] at h ⊢
                cases hstoi : cppStoi (url_decode (split_key_value x '=').2) with
                | none => rw [hstoi] at h; exact absurd h (by simp)
                | some val =>
                  rw [hstoi] at h
                  dsimp only at h ⊢
                  exact ih _ h
              · rw [if_neg h6] at h ⊢
                exact ih _ h

theorem parse_options_loop_one_authSource (v : Str) (r : MongoURI)
    (hv : optValueSafe v = true) :
    parse_options_loop ["authSource=".toList ++ v] r = .ok { r with auth_source := v } := by
  have heq : "authSource=".toList ++ v = "authSource".toList ++ '=' :: v := rfl
  rw [heq]
  unfold parse_options_loop
  dsimp only
  rw [split_key_value_render _ _ (by decide)]
  dsimp only
  have h1 : ¬(("authSource".toList : Str) = []) := by decide
  rw [if_neg h1]
  have h2 : url_decode ("authSource".toList) = "authSource".toList := by decide
  rw [h2]
  rw [if_pos rfl, url_decode_id_of_value_safe v hv]
  rfl

theorem parse_options_loop_one_replicaSet (v : Str) (r : MongoURI)
    (hv : optValueSafe v = true) :
    parse_options_loop ["replicaSet=".toList ++ v] r = .ok { r with replica_set := v } := by
  have heq : "replicaSet=".toList ++ v = "replicaSet".toList ++ '=' :: v := rfl
  rw [heq]
  unfold parse_options_loop
  dsimp only
  rw [split_key_value_render _ _ (by decide)]
  dsimp only
  have h1 : ¬(("replicaSet".toList : Str) = []) := by decide
  rw [if_neg h1]
  have h2 : url_decode ("replicaSet".toList) = "replicaSet".toList := by decide
  rw [h2]
  have h3 : ¬(("replicaSet".toList : Str) = "authSource".toList) := by decide
  rw [if_neg h3, if_pos rfl, url_decode_id_of_value_safe v hv]
  rfl

theorem parse_options_loop_one_ssl (r : MongoURI) :
    parse_options_loop ["ssl=true".toList] r = .ok { r with ssl := true } := rfl

theorem parse_options_loop_one_connect (t : Int) (r : MongoURI)
    (ht : intInRange t = true) :
    parse_options_loop ["connectTimeoutMS=".toList ++ intToStr t] r =
      .ok { r with connect_timeout_ms := t } := by
  have hrange : -2147483648 ≤ t ∧ t ≤ 2147483647 := by
    simp only [intInRange, Bool.and_eq_true, decide_eq_true_eq] at ht
    exact ht
  have heq : "connectTimeoutMS=".toList ++ intToStr t =
      "connectTimeoutMS".toList ++ '=' :: intToStr t := by
    simp [show ("connectTimeoutMS=".toList : Str) = "connectTimeoutMS".toList ++ ['='] from rfl]
  rw [heq]
  unfold parse_options_loop
  dsimp only
  rw [split_key_value_render _ _ (by decide)]
  dsimp only
  have h1 : ¬(("connectTimeoutMS".toList : Str) = []) := by decide
  rw [if_neg h1]
  have h2 : url_decode ("connectTimeoutMS".toList) = "connectTimeoutMS".toList := by decide
  rw [h2]
  have h3 : ¬(("connectTimeoutMS".toList : Str) = "authSource".toList) := by decide
  have h4 : ¬(("connectTimeoutMS".toList : Str) = "replicaSet".toList) := by decide
  have h5 : ¬(("connectTimeoutMS".toList : Str) = "ssl".toList ∨
      ("connectTimeoutMS".toList : Str) = "tls".toList) := by decide
  rw [if_neg h3, if_neg h4, if_neg h5, if_pos rfl, url_decode_intToStr,
    cppStoi_intToStr t hrange.1 hrange.2]
  rfl

theorem parse_options_loop_one_socket (t : Int) (r : MongoURI)
    (ht : intInRange t = true) :
    parse_options_loop ["socketTimeoutMS=".toList ++ intToStr t] r =
      .ok { r with socket_timeout_ms := t } := by
  have hrange : -2147483648 ≤ t ∧ t ≤ 2147483647 := by
    simp only [intInRange, Bool.and_eq_true, decide_eq_true_eq] at ht
    exact ht
  have heq : "socketTimeoutMS=".toList ++ intToStr t =
      "socketTimeoutMS".toList ++ '=' :: intToStr t := by
    simp [show ("socketTimeoutMS=".toList : Str) = "socketTimeoutMS".toList ++ ['='] from rfl]
  rw [heq]
  unfold parse_options_loop
  dsimp only
  rw [split_key_value_render _ _ (by decide)]
  dsimp only
  have h1 : ¬(("socketTimeoutMS".toList : Str) = []) := by decide
  rw [if_neg h1]
  have h2 : url_decode ("socketTimeoutMS".toList) = "socketTimeoutMS".toList := by decide
  rw [h2]
  have h3 : ¬(("socketTimeoutMS".toList : Str) = "authSource".toList) := by decide
  have h4 : ¬(("socketTimeoutMS".toList : Str) = "replicaSet".toList) := by decide
  have h5 : ¬(("socketTimeoutMS".toList : Str) = "ssl".toList ∨
      ("socketTimeoutMS".toList : Str) = "tls".toList) := by decide
  have h6 : ¬(("socketTimeoutMS".toList : Str) = "connectTimeoutMS".toList) := by decide
  rw [if_neg h3, if_neg h4, if_neg h5, if_neg h6, if_pos rfl, url_decode_intToStr,
    cppStoi_intToStr t hrange.1 hrange.2]
  rfl

theorem parse_options_loop_one_custom (k v : Str) (r : MongoURI)
    (hk : k ≠ []) (hkc : optKeyCharsSafe k = true)
    (hkn : k ∉ knownOptionKeys) (hv : optValueSafe v = true) :
    parse_options_loop [k ++ '=' :: v] r =
      .ok { r with options := omapInsert r.options k v } := by
  have hkeq : '=' ∉ k := by
    intro hm
    have := List.all_eq_true.1 hkc _ hm
    simp only [decide_eq_true_eq] at this
    exact this (by tauto)
  unfold parse_options_loop
  dsimp only
  rw [split_key_value_render _ _ hkeq]
  dsimp only
  rw [if_neg hk, url_decode_id_of_key_safe k hkc, url_decode_id_of_value_safe v hv]
  have h3 : ¬(k = "authSource".toList) := fun h => hkn (by rw [h]; decide)
  have h4 : ¬(k = "replicaSet".toList) := fun h => hkn (by rw [h]; decide)
  have h5 : ¬(k = "ssl".toList ∨ k = "tls".toList) := by
    rintro (h | h) <;> exact hkn (by rw [h]; decide)
  have h6 : ¬(k = "connectTimeoutMS".toList) := fun h => hkn (by rw [h]; decide)
  have h7 : ¬(k = "socketTimeoutMS".toList) := fun h => hkn (by rw [h]; decide)
  rw [if_neg h3, if_neg h4, if_neg h5, if_neg h6, if_neg h7]
  rfl

theorem parse_options_loop_custom_list (opts : List (Str × Str)) (r : MongoURI)
    (hkeys : ∀ e ∈ opts, e.1 ≠ [] ∧ e.1 ∉ knownOptionKeys)
    (hchars : ∀ e ∈ opts, optKeyCharsSafe e.1 = true ∧ optValueSafe e.2 = true) :
    parse_options_loop (opts.map (fun kv => kv.1 ++ '=' :: kv.2)) r =
      .ok { r with options := opts.foldl (fun m kv => omapInsert m kv.1 kv.2) r.options } := by
  induction opts generalizing r with
  | nil => rfl
  | cons e rest ih =>
    simp only [List.map_cons]
    have hstep : parse_options_loop [e.1 ++ '=' :: e.2] r =
        .ok { r with options := omapInsert r.options e.1 e.2 } :=
      parse_options_loop_one_custom e.1 e.2 r
        (hkeys e (List.mem_cons_self _ _)).1 (hchars e (List.mem_cons_self _ _)).1
        (hkeys e (List.mem_cons_self _ _)).2 (hchars e (List.mem_cons_self _ _)).2
    have happ := parse_options_loop_append [e.1 ++ '=' :: e.2]
      (rest.map (fun kv => kv.1 ++ '=' :: kv.2)) r _ hstep
    simp only [List.singleton_append] at happ
    rw [happ, ih _ (fun f hf => hkeys f (List.mem_cons_of_mem _ hf))
      (fun f hf => hchars f (List.mem_cons_of_mem _ hf))]
    simp only [List.foldl_cons]

theorem options_stage_auth (u r : MongoURI) (rest : List Str)
    (hsafe : u.auth_source = [] ∨ (u.auth_source ≠ u.database ∧ optValueSafe u.auth_source = true))
    (hr : r.auth_source = []) :
    parse_options_loop
      ((if u.auth_source ≠ [] ∧ u.auth_source ≠ u.database then
        ["authSource=".toList ++ u.auth_source] else []) ++ rest) r =
      parse_options_loop rest { r with auth_source := u.auth_source } := by
  by_cases hc : u.auth_source ≠ [] ∧ u.auth_source ≠ u.database
  · rw [if_pos hc]
    have hv : optValueSafe u.auth_source = true := by
      rcases hsafe with h | h
      · exact absurd h hc.1
      · exact h.2
    exact parse_options_loop_append _ _ _ _ (parse_options_loop_one_authSource _ _ hv)
  · rw [if_neg hc, List.nil_append]
    have hempty : u.auth_source = [] := by tauto
    have hrec : ({ r with auth_source := u.auth_source } : MongoURI) = r := by
      rw [hempty, ← hr]
    rw [hrec]

theorem options_stage_replica (u r : MongoURI) (rest : List Str)
    (hsafe : optValueSafe u.replica_set = true)
    (hr : r.replica_set = []) :
    parse_options_loop
      ((if u.replica_set ≠ [] then ["replicaSet=".toList ++ u.replica_set] else []) ++ rest) r =
      parse_options_loop rest { r with replica_set := u.replica_set } := by
  by_cases hc : u.replica_set ≠ []
  · rw [if_pos hc]
    exact parse_options_loop_append _ _ _ _ (parse_options_loop_one_replicaSet _ _ hsafe)
  · rw [if_neg hc, List.nil_append]
    have hempty : u.replica_set = [] := by tauto
    have hrec : ({ r with replica_set := u.replica_set } : MongoURI) = r := by
      rw [hempty, ← hr]
    rw [hrec]

theorem options_stage_ssl (u r : MongoURI) (rest : List Str)
    (hr : r.ssl = false) :
    parse_options_loop ((if u.ssl then ["ssl=true".toList] else []) ++ rest) r =
      parse_options_loop rest { r with ssl := u.ssl } := by
  by_cases hc : u.ssl = true
  · rw [if_pos hc, hc]
    exact parse_options_loop_append _ _ _ _ (parse_options_loop_one_ssl _)
  · rw [if_neg hc, List.nil_append]
    have hempty : u.ssl = false := by simpa using hc
    have hrec : ({ r with ssl := u.ssl } : MongoURI) = r := by
      rw [hempty, ← hr]
    rw [hrec]

theorem options_stage_connect (u r : MongoURI) (rest : List Str)
    (ht : intInRange u.connect_timeout_ms = true)
    (hr : r.connect_timeout_ms = 30000) :
    parse_options_loop
      ((if u.connect_timeout_ms ≠ 30000 then
        ["connectTimeoutMS=".toList ++ intToStr u.connect_timeout_ms] else []) ++ rest) r =
      parse_options_loop rest { r with connect_timeout_ms := u.connect_timeout_ms } := by
  by_cases hc : u.connect_timeout_ms ≠ 30000
  · rw [if_pos hc]
    exact parse_options_loop_append _ _ _ _ (parse_options_loop_one_connect _ _ ht)
  · rw [if_neg hc, List.nil_append]
    have hempty : u.connect_timeout_ms = 30000 := by tauto
    have hrec : ({ r with connect_timeout_ms := u.connect_timeout_ms } : MongoURI) = r := by
      rw [hempty, ← hr]
    rw [hrec]

theorem options_stage_socket (u r : MongoURI) (rest : List Str)
    (ht : intInRange u.socket_timeout_ms = true)
    (hr : r.socket_timeout_ms = 30000) :
    parse_options_loop
      ((if u.socket_timeout_ms ≠ 30000 then
        ["socketTimeoutMS=".toList ++ intToStr u.socket_timeout_ms] else []) ++ rest) r =
      parse_options_loop rest { r with socket_timeout_ms := u.socket_timeout_ms } := by
  by_cases hc : u.socket_timeout_ms ≠ 30000
  · rw [if_pos hc]
    exact parse_options_loop_append _ _ _ _ (parse_options_loop_one_socket _ _ ht)
  · rw [if_neg hc, List.nil_append]
    have hempty : u.socket_timeout_ms = 30000 := by tauto
    have hrec : ({ r with socket_timeout_ms := u.socket_timeout_ms } : MongoURI) = r := by
      rw [hempty, ← hr]
    rw [hrec]

theorem parse_options_loop_optionParts (u r : MongoURI)
    (hauth : u.auth_source = [] ∨
      (u.auth_source ≠ u.database ∧ optValueSafe u.auth_source = true))
    (hrep : optValueSafe u.replica_set = true)
    (hct : intInRange u.connect_timeout_ms = true)
    (hst : intInRange u.socket_timeout_ms = true)
    (hsort : omapSorted u.options = true)
    (hkeys : ∀ e ∈ u.options, e.1 ≠ [] ∧ e.1 ∉ knownOptionKeys)
    (hchars : ∀ e ∈ u.options, optKeyCharsSafe e.1 = true ∧ optValueSafe e.2 = true)
    (hr1 : r.auth_source = []) (hr2 : r.replica_set = []) (hr3 : r.ssl = false)
    (hr4 : r.connect_timeout_ms = 30000) (hr5 : r.socket_timeout_ms = 30000)
    (hr6 : r.options = []) :
    parse_options_loop u.optionParts r =
      .ok { r with auth_source := u.auth_source, replica_set := u.replica_set,
                   ssl := u.ssl, connect_timeout_ms := u.connect_timeout_ms,
                   socket_timeout_ms := u.socket_timeout_ms, options := u.options } := by
  unfold MongoURI.optionParts
  simp only [List.append_assoc]
  rw [options_stage_auth u r _ hauth hr1]
  rw [options_stage_replica u ({ r with auth_source := u.auth_source }) _ hrep hr2]
  rw [options_stage_ssl u ({ r with auth_source := u.auth_source, replica_set := u.replica_set }) _ hr3]
  rw [options_stage_connect u ({ r with auth_source := u.auth_source, replica_set := u.replica_set, ssl := u.ssl }) _ hct hr4]
  rw [options_stage_socket u ({ r with auth_source := u.auth_source, replica_set := u.replica_set, ssl := u.ssl, connect_timeout_ms := u.connect_timeout_ms }) _ hst hr5]
  rw [parse_options_loop_custom_list u.options ({ r with auth_source := u.auth_source, replica_set := u.replica_set, ssl := u.ssl, connect_timeout_ms := u.connect_timeout_ms, socket_timeout_ms := u.socket_timeout_ms }) hkeys hchars]
  have hopts0 : ({ r with auth_source := u.auth_source, replica_set := u.replica_set, ssl := u.ssl, connect_timeout_ms := u.connect_timeout_ms, socket_timeout_ms := u.socket_timeout_ms } : MongoURI).options = ([] : List (Str × Str)) := hr6
  rw [hopts0, foldl_omapInsert_sorted u.options hsort]

theorem mem_ite_singleton {α : Type} (c : Prop) [Decidable c] (x p : α)
    (h : p ∈ (if c then [x] else [])) : c ∧ p = x := by
  split at h
  · next hc => exact ⟨hc, by simpa using h⟩
  · simp at h

theorem intToStr_chars (i : Int) : ∀ c ∈ intToStr i, c = '-' ∨ isAsciiDigit c = true := by
  intro c hc
  unfold intToStr at hc
  split at hc
  · rcases List.mem_cons.1 hc with rfl | hc'
    · exact Or.inl rfl
    · exact Or.inr ((natToStr_spec _).2.1 c hc')
  · exact Or.inr ((natToStr_spec _).2.1 c hc)

theorem optionParts_mem (u : MongoURI) (p : Str)
    (hauth : u.auth_source = [] ∨
      (u.auth_source ≠ u.database ∧ optValueSafe u.auth_source = true))
    (hrep : optValueSafe u.replica_set = true)
    (hchars : ∀ e ∈ u.options, optKeyCharsSafe e.1 = true ∧ optValueSafe e.2 = true)
    (hkeysne : ∀ e ∈ u.options, e.1 ≠ [])
    (hp : p ∈ u.optionParts) : p ≠ [] ∧ '&' ∉ p := by
  have hval : ∀ (v : Str), optValueSafe v = true → '&' ∉ v := by
    intro v hv hm
    have := List.all_eq_true.1 hv _ hm
    simp only [decide_eq_true_eq] at this
    exact this (by tauto)
  unfold MongoURI.optionParts at hp
  simp only [List.append_assoc] at hp
  rcases List.mem_append.1 hp with hp1 | hp
  · obtain ⟨hc, rfl⟩ := mem_ite_singleton (u.auth_source ≠ [] ∧ u.auth_source ≠ u.database) _ _ hp1
    have hsafe : optValueSafe u.auth_source = true := by
      rcases hauth with h | h
      · exact absurd h hc.1
      · exact h.2
    refine ⟨by simp, ?_⟩
    intro hm
    rcases List.mem_append.1 hm with hm | hm
    · exact absurd hm (by decide)
    · exact hval _ hsafe hm
  rcases List.mem_append.1 hp with hp1 | hp
  · obtain ⟨hc, rfl⟩ := mem_ite_singleton (u.replica_set ≠ []) _ _ hp1
    refine ⟨by simp, ?_⟩
    intro hm
    rcases List.mem_append.1 hm with hm | hm
    · exact absurd hm (by decide)
    · exact hval _ hrep hm
  rcases List.mem_append.1 hp with hp1 | hp
  · obtain ⟨hc, rfl⟩ := mem_ite_singleton (u.ssl = true) _ _ hp1
    exact ⟨by simp, by decide⟩
  rcases List.mem_append.1 hp with hp1 | hp
  · obtain ⟨hc, rfl⟩ := mem_ite_singleton (u.connect_timeout_ms ≠ 30000) _ _ hp1
    refine ⟨by simp, ?_⟩
    intro hm
    rcases List.mem_append.1 hm with hm | hm
    · exact absurd hm (by decide)
    · rcases intToStr_chars _ _ hm with h | h
      · exact absurd h (by decide)
      · exact absurd h (by decide)
  rcases List.mem_append.1 hp with hp1 | hp
  · obtain ⟨hc, rfl⟩ := mem_ite_singleton (u.socket_timeout_ms ≠ 30000) _ _ hp1
    refine ⟨by simp, ?_⟩
    intro hm
    rcases List.mem_append.1 hm with hm | hm
    · exact absurd hm (by decide)
    · rcases intToStr_chars _ _ hm with h | h
      · exact absurd h (by decide)
      · exact absurd h (by decide)
  · obtain ⟨e, he, rfl⟩ := List.mem_map.1 hp
    refine ⟨by simp [hkeysne e he], ?_⟩
    intro hm
    rcases List.mem_append.1 hm with hm | hm
    · have := List.all_eq_true.1 (hchars e he).1 _ hm
      simp only [decide_eq_true_eq] at this
      exact this (by tauto)
    · rcases List.mem_cons.1 hm with heq | hm'
      · exact absurd heq (by decide)
      · exact hval _ (hchars e he).2 hm'

theorem credSafe_not_mem (s : Str) (h : credSafe s = true) :
    '@' ∉ s ∧ '/' ∉ s ∧ '?' ∉ s := by
  refine ⟨fun hm => ?_, fun hm => ?_, fun hm => ?_⟩ <;>
  · have := List.all_eq_true.1 h _ hm
    simp only [decide_eq_true_eq] at this
    exact this (by tauto)

theorem parse_options_render (u r : MongoURI)
    (hauth : u.auth_source = [] ∨
      (u.auth_source ≠ u.database ∧ optValueSafe u.auth_source = true))
    (hrep : optValueSafe u.replica_set = true)
    (hct : intInRange u.connect_timeout_ms = true)
    (hst : intInRange u.socket_timeout_ms = true)
    (hsort : omapSorted u.options = true)
    (hkeys : ∀ e ∈ u.options, e.1 ≠ [] ∧ e.1 ∉ knownOptionKeys)
    (hchars : ∀ e ∈ u.options, optKeyCharsSafe e.1 = true ∧ optValueSafe e.2 = true)
    (hr1 : r.auth_source = []) (hr2 : r.replica_set = []) (hr3 : r.ssl = false)
    (hr4 : r.connect_timeout_ms = 30000) (hr5 : r.socket_timeout_ms = 30000)
    (hr6 : r.options = []) :
    parse_options (if u.optionParts ≠ [] then '?' :: joinWith '&' u.optionParts else []) r =
      .ok ({ r with auth_source := u.auth_source, replica_set := u.replica_set, ssl := u.ssl, connect_timeout_ms := u.connect_timeout_ms, socket_timeout_ms := u.socket_timeout_ms, options := u.options }, []) := by
  by_cases hc : u.optionParts ≠ []
  · rw [if_pos hc]
    unfold parse_options
    split
    next rest₁ heq =>
      obtain ⟨-, h2⟩ := List.cons.inj heq
      subst h2
      rw [split_string_joinWith '&' u.optionParts hc
        (fun p hp => (optionParts_mem u p hauth hrep hchars (fun e he => (hkeys e he).1) hp).1)
        (fun p hp => (optionParts_mem u p hauth hrep hchars (fun e he => (hkeys e he).1) hp).2)]
      rw [parse_options_loop_optionParts u r hauth hrep hct hst hsort hkeys hchars
        hr1 hr2 hr3 hr4 hr5 hr6]
    next hnm => exact absurd rfl (hnm (joinWith '&' u.optionParts))
  · rw [if_neg hc]
    have hc' : u.optionParts = [] := by tauto
    unfold MongoURI.optionParts at hc'
    simp only [List.append_eq_nil, List.map_eq_nil_iff, ite_eq_right_iff,
      List.cons_ne_nil, imp_false] at hc'
    obtain ⟨⟨⟨⟨⟨hna, hnr⟩, hns⟩, hnc⟩, hnsk⟩, hnopt⟩ := hc'
    have hea : u.auth_source = [] := by tauto
    have her : u.replica_set = [] := by tauto
    have hes : u.ssl = false := by simpa using hns
    have hec : u.connect_timeout_ms = 30000 := by tauto
    have hesk : u.socket_timeout_ms = 30000 := by tauto
    have htarget : ({ r with auth_source := u.auth_source, replica_set := u.replica_set, ssl := u.ssl, connect_timeout_ms := u.connect_timeout_ms, socket_timeout_ms := u.socket_timeout_ms, options := u.options } : MongoURI) = r := by
      rw [hea.trans hr1.symm, her.trans hr2.symm, hes.trans hr3.symm,
        hec.trans hr4.symm, hesk.trans hr5.symm, hnopt.trans hr6.symm]
    rw [htarget]
    rfl

theorem parse_eq_of_stages (s s1 s2 s3 s4 s5 : Str) (r1 r2 r3 r4 r5 : MongoURI)
    (hne : s ≠ [])
    (h1 : parse_protocol s {} = .ok (r1, s1))
    (h2 : parse_credentials s1 r1 = .ok (r2, s2))
    (h3 : parse_hosts s2 r2 = .ok (r3, s3))
    (h4 : parse_database_collection s3 r3 = .ok (r4, s4))
    (h5 : parse_options s4 r4 = .ok (r5, s5)) :
    MongoURIParser.parse s =
      if r5.hosts = [] then { r5 with error_message := "No hosts specified".toList }
      else if r5.database = [] then
        { r5 with error_message := "Database name is required".toList }
      else if r5.collection = [] then
        { r5 with error_message := "Collection name is required for storage engine".toList }
      else { r5 with is_valid := true } := by
  unfold MongoURIParser.parse
  rw [if_neg hne, h1]
  dsimp only
  rw [h2]
  dsimp only
  rw [h3]
  dsimp only
  rw [h4]
  dsimp only
  rw [h5]

theorem uriRoundTrip_core (u : MongoURI) (h : uriRoundTripSafe u = true) :
    (MongoURIParser.parse u.to_connection_string).hosts = u.hosts ∧
    (MongoURIParser.parse u.to_connection_string).database = u.database ∧
    (MongoURIParser.parse u.to_connection_string).options = u.options ∧
    (MongoURIParser.parse u.to_connection_string).auth_source = u.auth_source ∧
    (MongoURIParser.parse u.to_connection_string).replica_set = u.replica_set ∧
    (MongoURIParser.parse u.to_connection_string).ssl = u.ssl ∧
    (MongoURIParser.parse u.to_connection_string).connect_timeout_ms = u.connect_timeout_ms ∧
    (MongoURIParser.parse u.to_connection_string).socket_timeout_ms = u.socket_timeout_ms := by
  simp only [uriRoundTripSafe, uriExtraSafe, Bool.and_eq_true, Bool.or_eq_true,
    decide_eq_true_eq, beq_iff_eq] at h
  obtain ⟨⟨⟨⟨⟨⟨⟨⟨hvalid, hhneb⟩, hallb⟩, hdbb⟩, hct⟩, hst⟩, hsort⟩, hkyb⟩, hx⟩ := h
  obtain ⟨⟨⟨⟨hcu, hcp⟩, hauthb⟩, hrepb⟩, hoptb⟩ := hx
  obtain ⟨hdbne, hdbval⟩ := hdbb
  have hhosts : ∀ e ∈ u.hosts, validate_hostname e.1 = true ∧ validate_port e.2 = true := by
    intro e he
    have := List.all_eq_true.1 hallb e he
    simpa [Bool.and_eq_true] using this
  have hkeys : ∀ e ∈ u.options, e.1 ≠ [] ∧ e.1 ∉ knownOptionKeys := by
    intro e he
    have := List.all_eq_true.1 hkyb e he
    simp only [Bool.and_eq_true, decide_eq_true_eq, beq_iff_eq, Bool.not_eq_true'] at this
    obtain ⟨h1, h2⟩ := this
    exact ⟨by simpa using h1, h2⟩
  have hchars : ∀ e ∈ u.options, optKeyCharsSafe e.1 = true ∧ optValueSafe e.2 = true := by
    intro e he
    have := List.all_eq_true.1 hoptb e he
    simpa [Bool.and_eq_true] using this
  have hhosts_ne : u.hosts ≠ [] := by
    intro hnil
    rw [hnil] at hhneb
    exact hhneb rfl
  have hstr : u.to_connection_string =
      (if u.is_srv then "mongodb+srv://".toList else "mongodb://".toList) ++
      ((if u.username ≠ [] then u.username ++ (if u.password ≠ [] then ':' :: u.password else []) ++ ['@'] else []) ++
       (joinWith ',' (u.hosts.map renderHost) ++ '/' ::
        (u.database ++ (if u.optionParts ≠ [] then '?' :: joinWith '&' u.optionParts else [])))) := by
    unfold MongoURI.to_connection_string
    rw [if_neg (by simp [hvalid])]
    dsimp only
    rw [if_pos hdbne]
    simp only [List.append_assoc, List.cons_append]
  have hne : u.to_connection_string ≠ [] := by
    rw [hstr]
    by_cases hsrv : u.is_srv = true
    · rw [if_pos hsrv]
      simp
    · rw [if_neg hsrv]
      simp
  obtain ⟨r1, h1, g1, g2, g3, g4, g5, g6, g7, g8⟩ :
      ∃ r1, parse_protocol u.to_connection_string {} =
        .ok (r1, (if u.username ≠ [] then u.username ++ (if u.password ≠ [] then ':' :: u.password else []) ++ ['@'] else []) ++
          (joinWith ',' (u.hosts.map renderHost) ++ '/' ::
            (u.database ++ (if u.optionParts ≠ [] then '?' :: joinWith '&' u.optionParts else [])))) ∧
        r1.auth_source = [] ∧ r1.hosts = [] ∧ r1.replica_set = [] ∧ r1.collection = [] ∧
        r1.ssl = false ∧ r1.connect_timeout_ms = 30000 ∧ r1.socket_timeout_ms = 30000 ∧
        r1.options = [] := by
    rw [hstr]
    by_cases hsrv : u.is_srv = true
    · rw [if_pos hsrv]
      exact ⟨_, parse_protocol_render_srv _ _, rfl, rfl, rfl, rfl, rfl, rfl, rfl, rfl⟩
    · rw [if_neg hsrv]
      exact ⟨_, parse_protocol_render_plain _ _, rfl, rfl, rfl, rfl, rfl, rfl, rfl, rfl⟩
  obtain ⟨hat, hslash, hq⟩ := hostsPart_no_specials u.hosts hhosts
  obtain ⟨r2, h2, f_auth, f_hosts, f_rep, f_coll, f_ssl, f_ct, f_st, f_opt⟩ :
      ∃ r2, parse_credentials
          ((if u.username ≠ [] then u.username ++ (if u.password ≠ [] then ':' :: u.password else []) ++ ['@'] else []) ++
            (joinWith ',' (u.hosts.map renderHost) ++ '/' ::
              (u.database ++ (if u.optionParts ≠ [] then '?' :: joinWith '&' u.optionParts else [])))) r1 =
        .ok (r2, joinWith ',' (u.hosts.map renderHost) ++ '/' ::
          (u.database ++ (if u.optionParts ≠ [] then '?' :: joinWith '&' u.optionParts else []))) ∧
        r2.auth_source = [] ∧ r2.hosts = [] ∧ r2.replica_set = [] ∧ r2.collection = [] ∧
        r2.ssl = false ∧ r2.connect_timeout_ms = 30000 ∧ r2.socket_timeout_ms = 30000 ∧
        r2.options = [] := by
    by_cases huser : u.username = []
    · rw [if_neg (fun hc => hc huser), List.nil_append]
      exact ⟨r1, parse_credentials_skip _ _ r1 hat hslash, g1, g2, g3, g4, g5, g6, g7, g8⟩
    · rw [if_pos huser]
      have husafe := credSafe_not_mem u.username hcu
      have hpsafe := credSafe_not_mem u.password hcp
      have hpw : '@' ∉ (if u.password ≠ [] then ':' :: u.password else []) ∧
          '/' ∉ (if u.password ≠ [] then ':' :: u.password else []) ∧
          '?' ∉ (if u.password ≠ [] then ':' :: u.password else []) := by
        by_cases hpw0 : u.password ≠ []
        · rw [if_pos hpw0]
          refine ⟨fun hm => ?_, fun hm => ?_, fun hm => ?_⟩ <;>
            rcases List.mem_cons.1 hm with heq | hm'
          · exact absurd heq (by decide)
          · exact hpsafe.1 hm'
          · exact absurd heq (by decide)
          · exact hpsafe.2.1 hm'
          · exact absurd heq (by decide)
          · exact hpsafe.2.2 hm'
        · rw [if_neg hpw0]
          exact ⟨by simp, by simp, by simp⟩
      have ha' : '@' ∉ u.username ++ (if u.password ≠ [] then ':' :: u.password else []) := by
        intro hm
        rcases List.mem_append.1 hm with hm | hm
        exacts [husafe.1 hm, hpw.1 hm]
      have hs' : '/' ∉ u.username ++ (if u.password ≠ [] then ':' :: u.password else []) := by
        intro hm
        rcases List.mem_append.1 hm with hm | hm
        exacts [husafe.2.1 hm, hpw.2.1 hm]
      have hq' : '?' ∉ u.username ++ (if u.password ≠ [] then ':' :: u.password else []) := by
        intro hm
        rcases List.mem_append.1 hm with hm | hm
        exacts [husafe.2.2 hm, hpw.2.2 hm]
      rw [show (u.username ++ (if u.password ≠ [] then ':' :: u.password else []) ++ ['@']) ++
          (joinWith ',' (u.hosts.map renderHost) ++ '/' ::
            (u.database ++ (if u.optionParts ≠ [] then '?' :: joinWith '&' u.optionParts else []))) =
        (u.username ++ (if u.password ≠ [] then ':' :: u.password else [])) ++ '@' ::
          (joinWith ',' (u.hosts.map renderHost) ++ '/' ::
            (u.database ++ (if u.optionParts ≠ [] then '?' :: joinWith '&' u.optionParts else [])))
        from by simp]
      obtain ⟨r2, hok, e1, e2, e3, e4, e5, e6, e7, e8, e9, e10, e11⟩ :=
        parse_credentials_consume
          (u.username ++ (if u.password ≠ [] then ':' :: u.password else []))
          (joinWith ',' (u.hosts.map renderHost) ++ '/' ::
            (u.database ++ (if u.optionParts ≠ [] then '?' :: joinWith '&' u.optionParts else [])))
          r1 ha' hs' hq'
      exact ⟨r2, hok, e2.trans g1, e3.trans g2, e4.trans g3, e6.trans g4, e7.trans g5,
        e8.trans g6, e9.trans g7, e10.trans g8⟩
  have h3 := parse_hosts_render u.hosts
    (u.database ++ (if u.optionParts ≠ [] then '?' :: joinWith '&' u.optionParts else []))
    r2 f_hosts hhosts_ne hhosts
  have htail : (if u.optionParts ≠ [] then '?' :: joinWith '&' u.optionParts else []) = [] ∨
      ∃ t, (if u.optionParts ≠ [] then '?' :: joinWith '&' u.optionParts else []) = '?' :: t := by
    by_cases hop : u.optionParts ≠ []
    · exact Or.inr ⟨_, by rw [if_pos hop]⟩
    · exact Or.inl (by rw [if_neg hop])
  have h4 := parse_database_render u.database
    (if u.optionParts ≠ [] then '?' :: joinWith '&' u.optionParts else [])
    ({ r2 with hosts := u.hosts }) hdbval f_coll htail
  have h5 := parse_options_render u ({ { r2 with hosts := u.hosts } with database := u.database })
    hauthb hrepb hct hst hsort hkeys hchars f_auth f_rep f_ssl f_ct f_st f_opt
  have hfinal := parse_eq_of_stages _ _ _ _ _ _ _ _ _ _ _ hne h1 h2 h3 h4 h5
  rw [hfinal]
  dsimp only
  rw [if_neg hhosts_ne, if_neg hdbne, if_pos f_coll]
  exact ⟨rfl, rfl, rfl, rfl, rfl, rfl, rfl, rfl⟩

theorem cppStoiCore_range (s2 : Str) (sign v : Int) (h : cppStoiCore s2 sign = some v) :
    intInRange v = true := by
  unfold cppStoiCore at h
  dsimp only at h
  split at h
  · exact absurd h (by simp)
  · split at h
    · exact absurd h (by simp)
    · next hcond =>
      have hv := Option.some.inj h
      simp only [intInRange, Bool.and_eq_true, decide_eq_true_eq]
      constructor <;> omega

theorem cppStoi_range (s : Str) (v : Int) (h : cppStoi s = some v) :
    intInRange v = true := by
  unfold cppStoi at h
  exact cppStoiCore_range _ _ _ h

theorem url_decode_ne_nil (s : Str) (h : s ≠ []) : url_decode s ≠ [] := by
  rw [url_decode.eq_def]
  split
  · exact absurd rfl h
  · simp
  · simp
  · simp

theorem omapInsert_mem (m : List (Str × Str)) (k v : Str) (e : Str × Str)
    (h : e ∈ omapInsert m k v) : e ∈ m ∨ e = (k, v) := by
  induction m with
  | nil =>
    simp only [omapInsert, List.mem_singleton] at h
    exact Or.inr h
  | cons f rest ih =>
    obtain ⟨k', v'⟩ := f
    unfold omapInsert at h
    split at h
    · rcases List.mem_cons.1 h with rfl | hm
      · exact Or.inr rfl
      · exact Or.inl (List.mem_cons_of_mem _ hm)
    · split at h
      · rcases List.mem_cons.1 h with rfl | hm
        · exact Or.inr rfl
        · exact Or.inl hm
      · rcases List.mem_cons.1 h with rfl | hm
        · exact Or.inl (List.mem_cons_self _ _)
        · rcases ih hm with h' | h'
          · exact Or.inl (List.mem_cons_of_mem _ h')
          · exact Or.inr h'

theorem parse_protocol_ok_fields (s : Str) (r r' : MongoURI) (rest : Str)
    (h : parse_protocol s r = .ok (r', rest)) :
    r'.hosts = r.hosts ∧ r'.database = r.database ∧
    r'.connect_timeout_ms = r.connect_timeout_ms ∧
    r'.socket_timeout_ms = r.socket_timeout_ms ∧ r'.options = r.options ∧
    r'.is_valid = r.is_valid := by
  unfold parse_protocol at h
  split at h
  · cases h
    exact ⟨rfl, rfl, rfl, rfl, rfl, rfl⟩
  · split at h
    · cases h
      exact ⟨rfl, rfl, rfl, rfl, rfl, rfl⟩
    · exact absurd h (by simp)

theorem parse_protocol_error_isvalid (s : Str) (r r' : MongoURI)
    (h : parse_protocol s r = .error r') : r'.is_valid = r.is_valid := by
  unfold parse_protocol at h
  split at h
  · exact absurd h (by simp)
  · split at h
    · exact absurd h (by simp)
    · cases h
      rfl

theorem parse_credentials_ok_fields (s : Str) (r r' : MongoURI) (rest : Str)
    (h : parse_credentials s r = .ok (r', rest)) :
    r'.hosts = r.hosts ∧ r'.database = r.database ∧
    r'.connect_timeout_ms = r.connect_timeout_ms ∧
    r'.socket_timeout_ms = r.socket_timeout_ms ∧ r'.options = r.options ∧
    r'.is_valid = r.is_valid := by
  unfold parse_credentials at h
  split at h
  · cases h
    exact ⟨rfl, rfl, rfl, rfl, rfl, rfl⟩
  · dsimp only at h
    split at h
    · cases h
      exact ⟨rfl, rfl, rfl, rfl, rfl, rfl⟩
    · split at h
      · cases h
        exact ⟨rfl, rfl, rfl, rfl, rfl, rfl⟩
      · cases h
        exact ⟨rfl, rfl, rfl, rfl, rfl, rfl⟩

theorem parse_credentials_no_error (s : Str) (r r' : MongoURI)
    (h : parse_credentials s r = .error r') : False := by
  unfold parse_credentials at h
  split at h
  · exact absurd h (by simp)
  · dsimp only at h
    split at h
    · exact absurd h (by simp)
    · split at h
      · exact absurd h (by simp)
      · exact absurd h (by simp)

theorem parse_one_host_valid (hp : Str) (e : Str × Int)
    (h : parse_one_host hp = .ok e) :
    validate_hostname e.1 = true ∧ validate_port e.2 = true := by
  unfold parse_one_host at h
  dsimp only at h
  split at h
  · exact absurd h (by simp)
  · split at h
    · exact absurd h (by simp)
    · split at h
      · exact absurd h (by simp)
      · next h1 h2 =>
        cases h
        simp only [Bool.not_eq_true] at h1 h2
        constructor
        · simpa using h1
        · simpa using h2

theorem parse_hosts_loop_fields (hs : List Str) (r r' : MongoURI)
    (h : parse_hosts_loop hs r = .ok r') :
    r'.database = r.database ∧ r'.collection = r.collection ∧
    r'.connect_timeout_ms = r.connect_timeout_ms ∧
    r'.socket_timeout_ms = r.socket_timeout_ms ∧ r'.options = r.options ∧
    r'.is_valid = r.is_valid ∧
    ∀ e ∈ r'.hosts, e ∈ r.hosts ∨
      (validate_hostname e.1 = true ∧ validate_port e.2 = true) := by
  induction hs generalizing r with
  | nil =>
    simp only [parse_hosts_loop] at h
    cases h
    exact ⟨rfl, rfl, rfl, rfl, rfl, rfl, fun e he => Or.inl he⟩
  | cons hp rest ih =>
    unfold parse_hosts_loop at h
    split at h
    · exact absurd h (by simp)
    · next e hone =>
      obtain ⟨p1, p2, p3, p4, p5, p6, p7⟩ := ih _ h
      refine ⟨p1, p2, p3, p4, p5, p6, fun f hf => ?_⟩
      rcases p7 f hf with hm | hval
      · rcases List.mem_append.1 hm with hm' | hm'
        · exact Or.inl hm'
        · rw [List.mem_singleton.1 hm']
          exact Or.inr (parse_one_host_valid hp e hone)
      · exact Or.inr hval

theorem parse_hosts_loop_error_isvalid (hs : List Str) (r r' : MongoURI)
    (h : parse_hosts_loop hs r = .error r') : r'.is_valid = r.is_valid := by
  induction hs generalizing r with
  | nil => exact absurd h (by simp [parse_hosts_loop])
  | cons hp rest ih =>
    unfold parse_hosts_loop at h
    split at h
    · cases h
      rfl
    · have hx := ih _ h
      exact hx

theorem parse_hosts_ok_fields (s : Str) (r r' : MongoURI) (rest : Str)
    (h : parse_hosts s r = .ok (r', rest)) :
    r'.database = r.database ∧ r'.collection = r.collection ∧
    r'.connect_timeout_ms = r.connect_timeout_ms ∧
    r'.socket_timeout_ms = r.socket_timeout_ms ∧ r'.options = r.options ∧
    r'.is_valid = r.is_valid ∧
    ∀ e ∈ r'.hosts, e ∈ r.hosts ∨
      (validate_hostname e.1 = true ∧ validate_port e.2 = true) := by
  unfold parse_hosts at h
  dsimp only at h
  split at h
  · exact absurd h (by simp)
  · split at h
    · exact absurd h (by simp)
    · next r'' hloop =>
      cases h
      exact parse_hosts_loop_fields _ _ _ hloop

theorem parse_hosts_error_isvalid (s : Str) (r r' : MongoURI)
    (h : parse_hosts s r = .error r') : r'.is_valid = r.is_valid := by
  unfold parse_hosts at h
  dsimp only at h
  split at h
  · cases h
    rfl
  · split at h
    · next r'' hloop =>
      cases h
      exact parse_hosts_loop_error_isvalid _ _ _ hloop
    · exact absurd h (by simp)

theorem parse_database_ok_fields (s : Str) (r r' : MongoURI) (rest : Str)
    (h : parse_database_collection s r = .ok (r', rest)) :
    r'.hosts = r.hosts ∧ r'.connect_timeout_ms = r.connect_timeout_ms ∧
    r'.socket_timeout_ms = r.socket_timeout_ms ∧ r'.options = r.options ∧
    r'.is_valid = r.is_valid ∧
    (r'.database = r.database ∨ r'.database = [] ∨
      validate_database_name r'.database = true) := by
  unfold parse_database_collection at h
  split at h
  · rename_i rest₁
    dsimp only at h
    cases hsp : strFind? '/' (List.take ((strFind? '?' rest₁).getD rest₁.length) rest₁) with
    | some sp =>
      rw [hsp] at h
      dsimp only at h
      split at h
      · exact absurd h (by simp)
      · split at h
        · exact absurd h (by simp)
        · next hdbc hcolc =>
          cases h
          refine ⟨rfl, rfl, rfl, rfl, rfl, ?_⟩
          rcases not_and_or.1 hdbc with h1 | h1
          · exact Or.inr (Or.inl (not_not.1 h1))
          · exact Or.inr (Or.inr (not_not.1 h1))
    | none =>
      rw [hsp] at h
      dsimp only at h
      split at h
      · exact absurd h (by simp)
      · split at h
        · exact absurd h (by simp)
        · next hdbc hcolc =>
          cases h
          refine ⟨rfl, rfl, rfl, rfl, rfl, ?_⟩
          rcases not_and_or.1 hdbc with h1 | h1
          · exact Or.inr (Or.inl (not_not.1 h1))
          · exact Or.inr (Or.inr (not_not.1 h1))
  · cases h
    exact ⟨rfl, rfl, rfl, rfl, rfl, Or.inl rfl⟩

theorem parse_database_error_isvalid (s : Str) (r r' : MongoURI)
    (h : parse_database_collection s r = .error r') : r'.is_valid = r.is_valid := by
  unfold parse_database_collection at h
  split at h
  · rename_i rest₁
    dsimp only at h
    cases hsp : strFind? '/' (List.take ((strFind? '?' rest₁).getD rest₁.length) rest₁) with
    | some sp =>
      rw [hsp] at h
      dsimp only at h
      split at h
      · cases h
        rfl
      · split at h
        · cases h
          rfl
        · exact absurd h (by simp)
    | none =>
      rw [hsp] at h
      dsimp only at h
      split at h
      · cases h
        rfl
      · split at h
        · cases h
          rfl
        · exact absurd h (by simp)
  · exact absurd h (by simp)

theorem parse_options_loop_wf (pairs : List Str) (r r' : MongoURI)
    (h : parse_options_loop pairs r = .ok r') :
    r'.hosts = r.hosts ∧ r'.database = r.database ∧ r'.collection = r.collection ∧
    r'.is_valid = r.is_valid ∧
    (intInRange r.connect_timeout_ms = true → intInRange r'.connect_timeout_ms = true) ∧
    (intInRange r.socket_timeout_ms = true → intInRange r'.socket_timeout_ms = true) ∧
    (omapSorted r.options = true → omapSorted r'.options = true) ∧
    ((∀ e ∈ r.options, e.1 ≠ [] ∧ e.1 ∉ knownOptionKeys) →
      ∀ e ∈ r'.options, e.1 ≠ [] ∧ e.1 ∉ knownOptionKeys) := by
  induction pairs generalizing r with
  | nil =>
    simp only [parse_options_loop] at h
    cases h
    exact ⟨rfl, rfl, rfl, rfl, id, id, id, id⟩
  | cons pair rest ih =>
    unfold parse_options_loop at h
    dsimp only at h
    by_cases h1 : (split_key_value pair '=').1 = []
    · rw [if_pos h1] at h
      obtain ⟨a1, a2, a3, a4, a5, a6, a7, a8⟩ := ih _ h
      exact ⟨a1, a2, a3, a4, a5, a6, a7, a8⟩
    · rw [if_neg h1] at h
      by_cases h2 : url_decode (split_key_value pair '=').1 = "authSource".toList
      · rw [if_pos h2] at h
        obtain ⟨a1, a2, a3, a4, a5, a6, a7, a8⟩ := ih _ h
        exact ⟨a1, a2, a3, a4, a5, a6, a7, a8⟩
      · rw [if_neg h2] at h
        by_cases h3 : url_decode (split_key_value pair '=').1 = "replicaSet".toList
        · rw [if_pos h3] at h
          obtain ⟨a1, a2, a3, a4, a5, a6, a7, a8⟩ := ih _ h
          exact ⟨a1, a2, a3, a4, a5, a6, a7, a8⟩
        · rw [if_neg h3] at h
          by_cases h4 : url_decode (split_key_value pair '=').1 = "ssl".toList ∨
              url_decode (split_key_value pair '=').1 = "tls".toList
          · rw [if_pos h4] at h
            obtain ⟨a1, a2, a3, a4, a5, a6, a7, a8⟩ := ih _ h
            exact ⟨a1, a2, a3, a4, a5, a6, a7, a8⟩
          · rw [if_neg h4] at h
            by_cases h5 : url_decode (split_key_value pair '=').1 = "connectTimeoutMS".toList
            · rw [if_pos h5] at h
              cases hstoi : cppStoi (url_decode (split_key_value pair '=').2) with
              | none =>
                rw [hstoi] at h
                exact absurd h (by simp)
              | some val =>
                rw [hstoi] at h
                dsimp only at h
                obtain ⟨a1, a2, a3, a4, a5, a6, a7, a8⟩ := ih _ h
                exact ⟨a1, a2, a3, a4, fun _ => a5 (cppStoi_range _ _ hstoi), a6, a7, a8⟩
            · rw [if_neg h5] at h
              by_cases h6 : url_decode (split_key_value pair '=').1 = "socketTimeoutMS".toList
              · rw [if_pos h6] at h
                cases hstoi : cppStoi (url_decode (split_key_value pair '=').2) with
                | none =>
                  rw [hstoi] at h
                  exact absurd h (by simp)
                | some val =>
                  rw [hstoi] at h
                  dsimp only at h
                  obtain ⟨a1, a2, a3, a4, a5, a6, a7, a8⟩ := ih _ h
                  exact ⟨a1, a2, a3, a4, a5, fun _ => a6 (cppStoi_range _ _ hstoi), a7, a8⟩
              · rw [if_neg h6] at h
                obtain ⟨a1, a2, a3, a4, a5, a6, a7, a8⟩ := ih _ h
                refine ⟨a1, a2, a3, a4, a5, a6,
                  fun hs => a7 (omapSorted_insert _ _ _ hs), fun hk => a8 ?_⟩
                intro e he
                rcases omapInsert_mem _ _ _ _ he with hm | heq
                · exact hk e hm
                · rw [heq]
                  refine ⟨url_decode_ne_nil _ h1, ?_⟩
                  intro hmem
                  simp only [knownOptionKeys, List.mem_cons, List.not_mem_nil, or_false] at hmem
                  rcases hmem with hx | hx | hx | hx | hx | hx
                  · exact h2 hx
                  · exact h3 hx
                  · exact h4 (Or.inl hx)
                  · exact h4 (Or.inr hx)
                  · exact h5 hx
                  · exact h6 hx

theorem parse_options_loop_error_isvalid (pairs : List Str) (r r' : MongoURI)
    (h : parse_options_loop pairs r = .error r') : r'.is_valid = r.is_valid := by
  induction pairs generalizing r with
  | nil => exact absurd h (by simp [parse_options_loop])
  | cons pair rest ih =>
    unfold parse_options_loop at h
    dsimp only at h
    by_cases h1 : (split_key_value pair '=').1 = []
    · rw [if_pos h1] at h
      have hx := ih _ h
      exact hx
    · rw [if_neg h1] at h
      by_cases h2 : url_decode (split_key_value pair '=').1 = "authSource".toList
      · rw [if_pos h2] at h
        have hx := ih _ h
        exact hx
      · rw [if_neg h2] at h
        by_cases h3 : url_decode (split_key_value pair '=').1 = "replicaSet".toList
        · rw [if_pos h3] at h
          have hx := ih _ h
          exact hx
        · rw [if_neg h3] at h
          by_cases h4 : url_decode (split_key_value pair '=').1 = "ssl".toList ∨
              url_decode (split_key_value pair '=').1 = "tls".toList
          · rw [if_pos h4] at h
            have hx := ih _ h
            exact hx
          · rw [if_neg h4] at h
            by_cases h5 : url_decode (split_key_value pair '=').1 = "connectTimeoutMS".toList
            · rw [if_pos h5] at h
              cases hstoi : cppStoi (url_decode (split_key_value pair '=').2) with
              | none =>
                rw [hstoi] at h
                dsimp only at h
                cases h
                rfl
              | some val =>
                rw [hstoi] at h
                dsimp only at h
                have hx := ih _ h
                exact hx
            · rw [if_neg h5] at h
              by_cases h6 : url_decode (split_key_value pair '=').1 = "socketTimeoutMS".toList
              · rw [if_pos h6] at h
                cases hstoi : cppStoi (url_decode (split_key_value pair '=').2) with
                | none =>
                  rw [hstoi] at h
                  dsimp only at h
                  cases h
                  rfl
                | some val =>
                  rw [hstoi] at h
                  dsimp only at h
                  have hx := ih _ h
                  exact hx
              · rw [if_neg h6] at h
                have hx := ih _ h
                exact hx

theorem parse_options_ok_wf (s : Str) (r r' : MongoURI) (rest : Str)
    (h : parse_options s r = .ok (r', rest)) :
    r'.hosts = r.hosts ∧ r'.database = r.database ∧ r'.collection = r.collection ∧
    r'.is_valid = r.is_valid ∧
    (intInRange r.connect_timeout_ms = true → intInRange r'.connect_timeout_ms = true) ∧
    (intInRange r.socket_timeout_ms = true → intInRange r'.socket_timeout_ms = true) ∧
    (omapSorted r.options = true → omapSorted r'.options = true) ∧
    ((∀ e ∈ r.options, e.1 ≠ [] ∧ e.1 ∉ knownOptionKeys) →
      ∀ e ∈ r'.options, e.1 ≠ [] ∧ e.1 ∉ knownOptionKeys) := by
  unfold parse_options at h
  split at h
  · split at h
    · exact absurd h (by simp)
    · next r'' hloop =>
      cases h
      exact parse_options_loop_wf _ _ _ hloop
  · cases h
    exact ⟨rfl, rfl, rfl, rfl, id, id, id, id⟩

theorem parse_options_error_isvalid (s : Str) (r r' : MongoURI)
    (h : parse_options s r = .error r') : r'.is_valid = r.is_valid := by
  unfold parse_options at h
  split at h
  · split at h
    · next r'' hloop =>
      cases h
      exact parse_options_loop_error_isvalid _ _ _ hloop
    · exact absurd h (by simp)
  · exact absurd h (by simp)

theorem parse_valid_shape (s : Str) (hv : (MongoURIParser.parse s).is_valid = true) :
    ∃ s1 s2 s3 s4 s5 r1 r2 r3 r4 r5,
      parse_protocol s {} = .ok (r1, s1) ∧ parse_credentials s1 r1 = .ok (r2, s2) ∧
      parse_hosts s2 r2 = .ok (r3, s3) ∧ parse_database_collection s3 r3 = .ok (r4, s4) ∧
      parse_options s4 r4 = .ok (r5, s5) ∧ r5.hosts ≠ [] ∧ r5.database ≠ [] ∧
      r5.collection ≠ [] ∧ MongoURIParser.parse s = { r5 with is_valid := true } := by
  have hv' := hv
  rw [MongoURIParser.parse.eq_def] at hv'
  split at hv'
  · exact absurd hv' (by decide)
  · rename_i hne
    split at hv'
    · rename_i rerr herr
      rw [parse_protocol_error_isvalid _ _ _ herr] at hv'
      exact absurd hv' (by decide)
    · rename_i r1 s1 heq1
      have c1 := (parse_protocol_ok_fields _ _ _ _ heq1).2.2.2.2.2
      split at hv'
      · rename_i rerr herr
        exact (parse_credentials_no_error _ _ _ herr).elim
      · rename_i r2 s2 heq2
        have c2 := (parse_credentials_ok_fields _ _ _ _ heq2).2.2.2.2.2
        split at hv'
        · rename_i rerr herr
          rw [parse_hosts_error_isvalid _ _ _ herr, c2, c1] at hv'
          exact absurd hv' (by decide)
        · rename_i r3 s3 heq3
          have c3 := (parse_hosts_ok_fields _ _ _ _ heq3).2.2.2.2.2.1
          split at hv'
          · rename_i rerr herr
            rw [parse_database_error_isvalid _ _ _ herr, c3, c2, c1] at hv'
            exact absurd hv' (by decide)
          · rename_i r4 s4 heq4
            have c4 := (parse_database_ok_fields _ _ _ _ heq4).2.2.2.2.1
            split at hv'
            · rename_i rerr herr
              rw [parse_options_error_isvalid _ _ _ herr, c4, c3, c2, c1] at hv'
              exact absurd hv' (by decide)
            · rename_i r5 s5 heq5
              have c5 := (parse_options_ok_wf _ _ _ _ heq5).2.2.2.1
              have hval5 : r5.is_valid = false := by rw [c5, c4, c3, c2, c1]
              split at hv'
              · have hbad : r5.is_valid = true := hv'
                rw [hval5] at hbad
                exact absurd hbad (by decide)
              · rename_i hh
                split at hv'
                · have hbad : r5.is_valid = true := hv'
                  rw [hval5] at hbad
                  exact absurd hbad (by decide)
                · rename_i hd
                  split at hv'
                  · have hbad : r5.is_valid = true := hv'
                    rw [hval5] at hbad
                    exact absurd hbad (by decide)
                  · rename_i hcol
                    refine ⟨s1, s2, s3, s4, s5, r1, r2, r3, r4, r5, heq1, heq2, heq3,
                      heq4, heq5, hh, hd, hcol, ?_⟩
                    rw [parse_eq_of_stages s s1 s2 s3 s4 s5 r1 r2 r3 r4 r5 hne
                      heq1 heq2 heq3 heq4 heq5, if_neg hh, if_neg hd, if_neg hcol]

theorem parse_valid_roundTripSafe (s : Str)
    (hv : (MongoURIParser.parse s).is_valid = true)
    (hx : uriExtraSafe (MongoURIParser.parse s) = true) :
    uriRoundTripSafe (MongoURIParser.parse s) = true := by
  obtain ⟨s1, s2, s3, s4, s5, r1, r2, r3, r4, r5, h1, h2, h3, h4, h5, hh, hd, hcol, heq⟩ :=
    parse_valid_shape s hv
  obtain ⟨p1a, p1b, p1c, p1d, p1e, p1f⟩ := parse_protocol_ok_fields _ _ _ _ h1
  obtain ⟨p2a, p2b, p2c, p2d, p2e, p2f⟩ := parse_credentials_ok_fields _ _ _ _ h2
  obtain ⟨p3a, p3b, p3c, p3d, p3e, p3f, p3g⟩ := parse_hosts_ok_fields _ _ _ _ h3
  obtain ⟨p4a, p4b, p4c, p4d, p4e, p4f⟩ := parse_database_ok_fields _ _ _ _ h4
  obtain ⟨p5a, p5b, p5c, p5d, p5e, p5f, p5g, p5h⟩ := parse_options_ok_wf _ _ _ _ h5
  have hosts_valid : ∀ e ∈ r5.hosts, validate_hostname e.1 = true ∧ validate_port e.2 = true := by
    intro e he
    rw [p5a, p4a] at he
    rcases p3g e he with hm | hv2
    · rw [p2a, p1a] at hm
      exact absurd hm (List.not_mem_nil e)
    · exact hv2
  have hdb5 : validate_database_name r5.database = true := by
    have hchain : r3.database = [] := by rw [p3a, p2b, p1b]
    rcases p4f with hcase | hcase | hcase
    · exact absurd (by rw [p5b, hcase, hchain]) hd
    · exact absurd (by rw [p5b, hcase]) hd
    · rw [p5b]
      exact hcase
  have hct5 : intInRange r5.connect_timeout_ms = true := by
    apply p5e
    rw [p4b, p3c, p2c, p1c]
    decide
  have hst5 : intInRange r5.socket_timeout_ms = true := by
    apply p5f
    rw [p4c, p3d, p2d, p1d]
    decide
  have hsort5 : omapSorted r5.options = true := by
    apply p5g
    rw [p4d, p3e, p2e, p1e]
    rfl
  have hkeys5 : ∀ e ∈ r5.options, e.1 ≠ [] ∧ e.1 ∉ knownOptionKeys := by
    apply p5h
    · intro e he
      rw [p4d, p3e, p2e, p1e] at he
      exact absurd he (List.not_mem_nil e)
  rw [heq] at hx ⊢
  unfold uriRoundTripSafe
  simp only [Bool.and_eq_true, Bool.or_eq_true, decide_eq_true_eq, beq_iff_eq,
    List.all_eq_true]
  refine ⟨⟨⟨⟨⟨⟨⟨⟨trivial, ?_⟩, ?_⟩, ⟨?_, ?_⟩⟩, ?_⟩, ?_⟩, ?_⟩, ?_⟩, ?_⟩
  · intro hie
    exact hh (by simpa using hie)
  · intro e he
    exact hosts_valid e he
  · exact hd
  · exact hdb5
  · exact hct5
  · exact hst5
  · exact hsort5
  · intro e he
    exact ⟨(hkeys5 e he).1, (hkeys5 e he).2⟩
  · exact hx

/-- C9 (corrected): for a connection string whose parse succeeds
(`is_valid`), provided the parsed userinfo contains no `@`, `/` or `?`,
the parsed `authSource` is empty or both differs from the database (the
renderer drops it when they coincide) and contains none of `&`, `%`,
`+`, the parsed `replicaSet` contains none of `&`, `%`, `+`, and the
parsed pass-through option keys contain none of `&`, `=`, `%`, `+` and
their values none of `&`, `%`, `+`, rendering the driver-facing
connection string and re-parsing it preserves the host list (with
default port 27017 applied), the database, the pass-through option map,
and the recognized options `authSource`, `replicaSet`, `ssl`,
`connectTimeoutMS` and `socketTimeoutMS`; username and password are
excluded from the invariant. -/
theorem C9_amended_roundtrip (s : Str)
    (hv : (MongoURIParser.parse s).is_valid = true)
    (hx : uriExtraSafe (MongoURIParser.parse s) = true) :
    (MongoURIParser.parse (MongoURIParser.parse s).to_connection_string).hosts = (MongoURIParser.parse s).hosts ∧
    (MongoURIParser.parse (MongoURIParser.parse s).to_connection_string).database = (MongoURIParser.parse s).database ∧
    (MongoURIParser.parse (MongoURIParser.parse s).to_connection_string).options = (MongoURIParser.parse s).options ∧
    (MongoURIParser.parse (MongoURIParser.parse s).to_connection_string).auth_source = (MongoURIParser.parse s).auth_source ∧
    (MongoURIParser.parse (MongoURIParser.parse s).to_connection_string).replica_set = (MongoURIParser.parse s).replica_set ∧
    (MongoURIParser.parse (MongoURIParser.parse s).to_connection_string).ssl = (MongoURIParser.parse s).ssl ∧
    (MongoURIParser.parse (MongoURIParser.parse s).to_connection_string).connect_timeout_ms = (MongoURIParser.parse s).connect_timeout_ms ∧
    (MongoURIParser.parse (MongoURIParser.parse s).to_connection_string).socket_timeout_ms = (MongoURIParser.parse s).socket_timeout_ms :=
  uriRoundTrip_core _ (parse_valid_roundTripSafe s hv hx)

theorem C9_amended_roundtrip_witness :
    (MongoURIParser.parse ("mongodb://user:pw@localhost:27018,h2/db/coll?authSource=admin&connectTimeoutMS=5000&replicaSet=rs0&ssl=true&x=abc".toList)).is_valid = true ∧
    uriExtraSafe (MongoURIParser.parse ("mongodb://user:pw@localhost:27018,h2/db/coll?authSource=admin&connectTimeoutMS=5000&replicaSet=rs0&ssl=true&x=abc".toList)) = true ∧
    ((MongoURIParser.parse (MongoURIParser.parse ("mongodb://user:pw@localhost:27018,h2/db/coll?authSource=admin&connectTimeoutMS=5000&replicaSet=rs0&ssl=true&x=abc".toList)).to_connection_string).hosts = (MongoURIParser.parse ("mongodb://user:pw@localhost:27018,h2/db/coll?authSource=admin&connectTimeoutMS=5000&replicaSet=rs0&ssl=true&x=abc".toList)).hosts ∧
      (MongoURIParser.parse (MongoURIParser.parse ("mongodb://user:pw@localhost:27018,h2/db/coll?authSource=admin&connectTimeoutMS=5000&replicaSet=rs0&ssl=true&x=abc".toList)).to_connection_string).database = (MongoURIParser.parse ("mongodb://user:pw@localhost:27018,h2/db/coll?authSource=admin&connectTimeoutMS=5000&replicaSet=rs0&ssl=true&x=abc".toList)).database ∧
      (MongoURIParser.parse (MongoURIParser.parse ("mongodb://user:pw@localhost:27018,h2/db/coll?authSource=admin&connectTimeoutMS=5000&replicaSet=rs0&ssl=true&x=abc".toList)).to_connection_string).options = (MongoURIParser.parse ("mongodb://user:pw@localhost:27018,h2/db/coll?authSource=admin&connectTimeoutMS=5000&replicaSet=rs0&ssl=true&x=abc".toList)).options ∧
      (MongoURIParser.parse (MongoURIParser.parse ("mongodb://user:pw@localhost:27018,h2/db/coll?authSource=admin&connectTimeoutMS=5000&replicaSet=rs0&ssl=true&x=abc".toList)).to_connection_string).auth_source = (MongoURIParser.parse ("mongodb://user:pw@localhost:27018,h2/db/coll?authSource=admin&connectTimeoutMS=5000&replicaSet=rs0&ssl=true&x=abc".toList)).auth_source ∧
      (MongoURIParser.parse (MongoURIParser.parse ("mongodb://user:pw@localhost:27018,h2/db/coll?authSource=admin&connectTimeoutMS=5000&replicaSet=rs0&ssl=true&x=abc".toList)).to_connection_string).replica_set = (MongoURIParser.parse ("mongodb://user:pw@localhost:27018,h2/db/coll?authSource=admin&connectTimeoutMS=5000&replicaSet=rs0&ssl=true&x=abc".toList)).replica_set ∧
      (MongoURIParser.parse (MongoURIParser.parse ("mongodb://user:pw@localhost:27018,h2/db/coll?authSource=admin&connectTimeoutMS=5000&replicaSet=rs0&ssl=true&x=abc".toList)).to_connection_string).ssl = (MongoURIParser.parse ("mongodb://user:pw@localhost:27018,h2/db/coll?authSource=admin&connectTimeoutMS=5000&replicaSet=rs0&ssl=true&x=abc".toList)).ssl ∧
      (MongoURIParser.parse (MongoURIParser.parse ("mongodb://user:pw@localhost:27018,h2/db/coll?authSource=admin&connectTimeoutMS=5000&replicaSet=rs0&ssl=true&x=abc".toList)).to_connection_string).connect_timeout_ms = (MongoURIParser.parse ("mongodb://user:pw@localhost:27018,h2/db/coll?authSource=admin&connectTimeoutMS=5000&replicaSet=rs0&ssl=true&x=abc".toList)).connect_timeout_ms ∧
      (MongoURIParser.parse (MongoURIParser.parse ("mongodb://user:pw@localhost:27018,h2/db/coll?authSource=admin&connectTimeoutMS=5000&replicaSet=rs0&ssl=true&x=abc".toList)).to_connection_string).socket_timeout_ms = (MongoURIParser.parse ("mongodb://user:pw@localhost:27018,h2/db/coll?authSource=admin&connectTimeoutMS=5000&replicaSet=rs0&ssl=true&x=abc".toList)).socket_timeout_ms) :=
  ⟨by decide, by decide, C9_amended_roundtrip ("mongodb://user:pw@localhost:27018,h2/db/coll?authSource=admin&connectTimeoutMS=5000&replicaSet=rs0&ssl=true&x=abc".toList) (by decide) (by decide)⟩
